import Mathlib

/-!
Verification of the msgpack-javascript codec (EYHN fork).

The decoder state machine is shallowly embedded from `src/StreamDecoder.ts`.
JavaScript machine integers are modelled exactly (`Nat` / `Int`); IEEE
doubles are modelled by their 64-bit (resp. 32-bit) big-endian bit patterns,
since the codec only moves their bytes.  JavaScript strings are modelled by
their UTF-8 byte sequences: the UTF-8 primitives (`utf8DecodeJs`,
`utf8DecodeTD`) and the `CachedKeyDecoder` are external collaborators whose
observable behaviour is byte-content-to-string decoding, so a string is
identified with its byte content.
-/

/-- A byte of the wire format, `0 ≤ b < 256`. -/
abbrev Byte := Nat

/-- `UINT32_MAX` from `utils/int.ts`: default value of every length limit. -/
def UINT32_MAX : Nat := 4294967295

/-- `DEFAULT_INITIAL_BUFFER_SIZE` from `StreamDecoder.ts`. -/
def DEFAULT_INITIAL_BUFFER_SIZE : Nat := 2048

/-- A JavaScript number as produced by the decoder: either an exact integer
(from the fixint/uint/int families) or a float tagged by bit pattern
(from float 32 / float 64 payloads). -/
inductive JNum where
  | int (n : Int)
  | f32 (bits : Nat)
  | f64 (bits : Nat)
deriving DecidableEq, Repr

/-- `MapKeyType = string | number` from `StreamDecoder.ts`. -/
inductive MKey where
  | str (s : List Byte)
  | num (n : JNum)
deriving DecidableEq, Repr

/-- Decoded values (the `unknown` results of `doDecodeSync`).  Maps are the
`Record<string, unknown>` accumulators, represented as insertion-ordered
association lists; `ext` stands for an extension-codec result object carrying
the type code and payload. -/
inductive Value where
  | nil
  | bool (b : Bool)
  | num (n : JNum)
  | str (s : List Byte)
  | bin (b : List Byte)
  | arr (elems : List Value)
  | map (entries : List (MKey × Value))
  | ext (t : Int) (data : List Byte)
deriving Repr

/-- Errors of the decoder.  `decodeError` is the `DecodeError` class
(malformed / policy-violating input); `moreData` is the `MORE_DATA`
range error thrown by `readBytes` ("Insufficient data"); `extraBytes` is
`createExtraByteError` (a `RangeError`); `outOfFuel` is an artifact of the
fuel-indexed embedding of the unbounded `DECODE` loop and is unreachable
whenever the fuel exceeds the number of input bytes. -/
inductive Err where
  | decodeError (msg : String)
  | moreData
  | extraBytes
  | outOfFuel
deriving DecidableEq, Repr

/-- Big-endian byte string of `n`, `k` bytes long (the `DataView.setUintN`
layout); most significant byte first. -/
def beBytes : Nat → Nat → List Byte
  | 0, _ => []
  | k+1, n => (n / 256 ^ k) % 256 :: beBytes k n

/-- Big-endian value of a byte string (the `DataView.getUintN` reading). -/
def beNat : List Byte → Nat
  | [] => 0
  | b :: bs => b * 256 ^ bs.length + beNat bs

/-- `DataView.getIntN`: reinterpret a `k`-byte unsigned value as two's
complement signed. -/
def sInterp (k : Nat) (u : Nat) : Int :=
  if u < 2 ^ (8 * k - 1) then (u : Int) else (u : Int) - 2 ^ (8 * k)

/-- The UTF-8 bytes of the literal string rejected as a map key,
`"__proto__"`. -/
def protoBytes : List Byte := [95, 95, 112, 114, 111, 116, 111, 95, 95]

/-- `isValidMapKeyType` from `StreamDecoder.ts`: `typeof key` must be
`"string"` or `"number"` (both exact integers and floats are numbers). -/
def isValidMapKeyType : Value → Bool
  | .str _ => true
  | .num _ => true
  | _ => false

/-- The `object === "__proto__"` comparison: only a string can be
strictly equal to the string literal. -/
def isProtoKey : Value → Bool
  | .str s => s == protoBytes
  | _ => false

/-- Conversion of a key object that passed `isValidMapKeyType` to the
`MapKeyType` stored in the frame (`state.key = object`). -/
def toMapKey : Value → MKey
  | .str s => .str s
  | .num n => .num n
  | _ => .str []

/-- `StackState` from `StreamDecoder.ts`: one frame of the explicit
container stack.  `arrayS` is `StackArrayState` (declared size, elements
written so far, next-write position); `mapKeyS`/`mapValueS` are
`StackMapState` in its two phases (`key` is set only in the value phase). -/
inductive StackState where
  | arrayS (size : Nat) (array : List Value) (position : Nat)
  | mapKeyS (size : Nat) (readCount : Nat) (map : List (MKey × Value))
  | mapValueS (size : Nat) (key : MKey) (readCount : Nat) (map : List (MKey × Value))
deriving Repr

/-- `state.map[state.key!] = object`: JavaScript record assignment, which
overwrites an existing key in place (keeping its original position) or
appends a new one. -/
def recordSet : List (MKey × Value) → MKey → Value → List (MKey × Value)
  | [], k, v => [(k, v)]
  | (k', v') :: rest, k, v =>
    if k' = k then (k', v) :: rest else (k', v') :: recordSet rest k v

/-- Decoder configuration: the limit options of the `StreamDecoder`
constructor plus the extension codec, modelled as a decode function from
type code and payload (`ExtensionCodec.ts` is an external collaborator;
per the spec an unregistered type code is a decode error). -/
structure Config where
  maxStrLength : Nat
  maxBinLength : Nat
  maxArrayLength : Nat
  maxMapLength : Nat
  maxExtLength : Nat
  extDecode : Int → List Byte → Except String Value

/-- The default configuration of `decode.ts`: every limit is
`UINT32_MAX`, and the default extension registry is modelled from the
spec (section 4.4): decoding an unregistered extension type fails. -/
def defaultCfg : Config :=
  { maxStrLength := UINT32_MAX
    maxBinLength := UINT32_MAX
    maxArrayLength := UINT32_MAX
    maxMapLength := UINT32_MAX
    maxExtLength := UINT32_MAX
    extDecode := fun _ _ => .error "Unrecognized extension type" }

/-- A byte source: the one operation `readBytes` through which the state
machine obtains raw bytes.  `readBytes n` either delivers exactly `n`
bytes and the advanced source, or fails. -/
structure SrcOps (σ : Type) where
  readBytes : Nat → σ → Except Err (List Byte × σ)

/-- `readU8` (`readBytes(1)` then `getUint8(0)`). -/
def readU8 {σ : Type} (S : SrcOps σ) (s : σ) : Except Err (Nat × σ) := do
  let (bs, s) ← S.readBytes 1 s
  pure (beNat bs, s)

/-- `readU16` (`readBytes(2)` then `getUint16(0)`). -/
def readU16 {σ : Type} (S : SrcOps σ) (s : σ) : Except Err (Nat × σ) := do
  let (bs, s) ← S.readBytes 2 s
  pure (beNat bs, s)

/-- `readU32` (`readBytes(4)` then `getUint32(0)`). -/
def readU32 {σ : Type} (S : SrcOps σ) (s : σ) : Except Err (Nat × σ) := do
  let (bs, s) ← S.readBytes 4 s
  pure (beNat bs, s)

/-- `readU64` (`readBytes(8)` then `getUint64`, modelled exactly). -/
def readU64 {σ : Type} (S : SrcOps σ) (s : σ) : Except Err (Nat × σ) := do
  let (bs, s) ← S.readBytes 8 s
  pure (beNat bs, s)

/-- `readI8` (`readBytes(1)` then `getInt8(0)`). -/
def readI8 {σ : Type} (S : SrcOps σ) (s : σ) : Except Err (Int × σ) := do
  let (bs, s) ← S.readBytes 1 s
  pure (sInterp 1 (beNat bs), s)

/-- `readI16` (`readBytes(2)` then `getInt16(0)`). -/
def readI16 {σ : Type} (S : SrcOps σ) (s : σ) : Except Err (Int × σ) := do
  let (bs, s) ← S.readBytes 2 s
  pure (sInterp 2 (beNat bs), s)

/-- `readI32` (`readBytes(4)` then `getInt32(0)`). -/
def readI32 {σ : Type} (S : SrcOps σ) (s : σ) : Except Err (Int × σ) := do
  let (bs, s) ← S.readBytes 4 s
  pure (sInterp 4 (beNat bs), s)

/-- `readI64` (`readBytes(8)` then `getInt64`, modelled exactly). -/
def readI64 {σ : Type} (S : SrcOps σ) (s : σ) : Except Err (Int × σ) := do
  let (bs, s) ← S.readBytes 8 s
  pure (sInterp 8 (beNat bs), s)

/-- `readF32`: a float 32 payload, kept as its bit pattern. -/
def readF32 {σ : Type} (S : SrcOps σ) (s : σ) : Except Err (JNum × σ) := do
  let (bs, s) ← S.readBytes 4 s
  pure (.f32 (beNat bs), s)

/-- `readF64`: a float 64 payload, kept as its bit pattern. -/
def readF64 {σ : Type} (S : SrcOps σ) (s : σ) : Except Err (JNum × σ) := do
  let (bs, s) ← S.readBytes 8 s
  pure (.f64 (beNat bs), s)

/-- `pushMapState` from `StreamDecoder.ts`: reject a declared map size
above `maxMapLength` before allocating the frame, else push an
awaiting-key frame with an empty accumulator. -/
def pushMapState (cfg : Config) (size : Nat) (stack : List StackState) :
    Except String (List StackState) :=
  if size > cfg.maxMapLength then
    .error "Max length exceeded: map length > maxMapLength"
  else
    .ok (.mapKeyS size 0 [] :: stack)

/-- `pushArrayState` from `StreamDecoder.ts`: reject a declared array size
above `maxArrayLength` before allocating the frame or its target array. -/
def pushArrayState (cfg : Config) (size : Nat) (stack : List StackState) :
    Except String (List StackState) :=
  if size > cfg.maxArrayLength then
    .error "Max length exceeded: array length > maxArrayLength"
  else
    .ok (.arrayS size [] 0 :: stack)

/-- `decodeUtf8String` from `StreamDecoder.ts`: check `maxStrLength`
before reading the payload, then read `byteLength` bytes and decode them.
The three decode branches (`keyDecoder`, `utf8DecodeTD`, `utf8DecodeJs`)
are external byte-to-string primitives with the same observable result,
modelled as the byte content itself. -/
def decodeUtf8String {σ : Type} (cfg : Config) (S : SrcOps σ) (byteLength : Nat)
    (s : σ) : Except Err (List Byte × σ) :=
  if byteLength > cfg.maxStrLength then
    .error (.decodeError "Max length exceeded: UTF-8 byte length > maxStrLength")
  else
    S.readBytes byteLength s

/-- `decodeBinary` from `StreamDecoder.ts`: check `maxBinLength` before
reading the payload. -/
def decodeBinary {σ : Type} (cfg : Config) (S : SrcOps σ) (byteLength : Nat)
    (s : σ) : Except Err (List Byte × σ) :=
  if byteLength > cfg.maxBinLength then
    .error (.decodeError "Max length exceeded: bin length > maxBinLength")
  else
    S.readBytes byteLength s

/-- `decodeExtension` from `StreamDecoder.ts`: check `maxExtLength`, then
read the signed 8-bit type code, then the payload via `decodeBinary`
(which re-checks `maxBinLength`), then dispatch to the extension codec. -/
def decodeExtension {σ : Type} (cfg : Config) (S : SrcOps σ) (size : Nat)
    (s : σ) : Except Err (Value × σ) :=
  if size > cfg.maxExtLength then
    .error (.decodeError "Max length exceeded: ext length > maxExtLength")
  else do
    let (extType, s) ← readI8 S s
    let (data, s) ← decodeBinary cfg S size s
    match cfg.extDecode extType data with
    | .ok v => .ok (v, s)
    | .error m => .error (.decodeError m)

/-- Result of interpreting one head byte in `doDecodeSync`: either a
completed object, or a request to push an array/map frame of the given
declared size and restart the `DECODE` loop. -/
inductive DispResult (σ : Type) where
  | obj (v : Value) (s : σ)
  | pushArr (size : Nat) (s : σ)
  | pushMap (size : Nat) (s : σ)

/-- One head-byte dispatch of the `DECODE` loop (`doDecodeSync` lines
110-277): read the head byte (the sentinel is cleared on every path before
the next iteration, so each iteration reads a fresh head byte) and
classify it following the source's branch order exactly. -/
def stepDispatch {σ : Type} (cfg : Config) (S : SrcOps σ) (s : σ) :
    Except Err (DispResult σ) := do
  let (headByte, s) ← readU8 S s
  if 0xe0 ≤ headByte then
    -- negative fixint (111x xxxx) 0xe0 - 0xff
    pure (.obj (.num (.int ((headByte : Int) - 0x100))) s)
  else if headByte < 0xc0 then
    if headByte < 0x80 then
      -- positive fixint (0xxx xxxx) 0x00 - 0x7f
      pure (.obj (.num (.int headByte)) s)
    else if headByte < 0x90 then
      -- fixmap (1000 xxxx) 0x80 - 0x8f
      let size := headByte - 0x80
      if size ≠ 0 then pure (.pushMap size s) else pure (.obj (.map []) s)
    else if headByte < 0xa0 then
      -- fixarray (1001 xxxx) 0x90 - 0x9f
      let size := headByte - 0x90
      if size ≠ 0 then pure (.pushArr size s) else pure (.obj (.arr []) s)
    else
      -- fixstr (101x xxxx) 0xa0 - 0xbf
      let byteLength := headByte - 0xa0
      let (str, s) ← decodeUtf8String cfg S byteLength s
      pure (.obj (.str str) s)
  else if headByte = 0xc0 then
    pure (.obj .nil s)
  else if headByte = 0xc2 then
    pure (.obj (.bool false) s)
  else if headByte = 0xc3 then
    pure (.obj (.bool true) s)
  else if headByte = 0xca then
    let (x, s) ← readF32 S s
    pure (.obj (.num x) s)
  else if headByte = 0xcb then
    let (x, s) ← readF64 S s
    pure (.obj (.num x) s)
  else if headByte = 0xcc then
    let (x, s) ← readU8 S s
    pure (.obj (.num (.int x)) s)
  else if headByte = 0xcd then
    let (x, s) ← readU16 S s
    pure (.obj (.num (.int x)) s)
  else if headByte = 0xce then
    let (x, s) ← readU32 S s
    pure (.obj (.num (.int x)) s)
  else if headByte = 0xcf then
    let (x, s) ← readU64 S s
    pure (.obj (.num (.int x)) s)
  else if headByte = 0xd0 then
    let (x, s) ← readI8 S s
    pure (.obj (.num (.int x)) s)
  else if headByte = 0xd1 then
    let (x, s) ← readI16 S s
    pure (.obj (.num (.int x)) s)
  else if headByte = 0xd2 then
    let (x, s) ← readI32 S s
    pure (.obj (.num (.int x)) s)
  else if headByte = 0xd3 then
    let (x, s) ← readI64 S s
    pure (.obj (.num (.int x)) s)
  else if headByte = 0xd9 then
    let (byteLength, s) ← readU8 S s
    let (str, s) ← decodeUtf8String cfg S byteLength s
    pure (.obj (.str str) s)
  else if headByte = 0xda then
    let (byteLength, s) ← readU16 S s
    let (str, s) ← decodeUtf8String cfg S byteLength s
    pure (.obj (.str str) s)
  else if headByte = 0xdb then
    let (byteLength, s) ← readU32 S s
    let (str, s) ← decodeUtf8String cfg S byteLength s
    pure (.obj (.str str) s)
  else if headByte = 0xdc then
    let (size, s) ← readU16 S s
    if size ≠ 0 then pure (.pushArr size s) else pure (.obj (.arr []) s)
  else if headByte = 0xdd then
    let (size, s) ← readU32 S s
    if size ≠ 0 then pure (.pushArr size s) else pure (.obj (.arr []) s)
  else if headByte = 0xde then
    let (size, s) ← readU16 S s
    if size ≠ 0 then pure (.pushMap size s) else pure (.obj (.map []) s)
  else if headByte = 0xdf then
    let (size, s) ← readU32 S s
    if size ≠ 0 then pure (.pushMap size s) else pure (.obj (.map []) s)
  else if headByte = 0xc4 then
    let (size, s) ← readU8 S s
    let (b, s) ← decodeBinary cfg S size s
    pure (.obj (.bin b) s)
  else if headByte = 0xc5 then
    let (size, s) ← readU16 S s
    let (b, s) ← decodeBinary cfg S size s
    pure (.obj (.bin b) s)
  else if headByte = 0xc6 then
    let (size, s) ← readU32 S s
    let (b, s) ← decodeBinary cfg S size s
    pure (.obj (.bin b) s)
  else if headByte = 0xd4 then
    let (v, s) ← decodeExtension cfg S 1 s
    pure (.obj v s)
  else if headByte = 0xd5 then
    let (v, s) ← decodeExtension cfg S 2 s
    pure (.obj v s)
  else if headByte = 0xd6 then
    let (v, s) ← decodeExtension cfg S 4 s
    pure (.obj v s)
  else if headByte = 0xd7 then
    let (v, s) ← decodeExtension cfg S 8 s
    pure (.obj v s)
  else if headByte = 0xd8 then
    let (v, s) ← decodeExtension cfg S 16 s
    pure (.obj v s)
  else if headByte = 0xc7 then
    let (size, s) ← readU8 S s
    let (v, s) ← decodeExtension cfg S size s
    pure (.obj v s)
  else if headByte = 0xc8 then
    let (size, s) ← readU16 S s
    let (v, s) ← decodeExtension cfg S size s
    pure (.obj v s)
  else if headByte = 0xc9 then
    let (size, s) ← readU32 S s
    let (v, s) ← decodeExtension cfg S size s
    pure (.obj v s)
  else
    .error (.decodeError "Unrecognized type byte")

/-- The stack-propagation loop of `doDecodeSync` (lines 281-322): feed a
completed object to the frame stack.  An array frame stores the object at
its next position and is popped exactly when the position reaches the
declared size, the array itself becoming the newly completed object; an
awaiting-key map frame validates the key and switches phase; an
awaiting-value map frame stores the pair and is popped exactly when the
pair count reaches the declared size.  Returns the final value when the
stack empties, or the stack to resume the `DECODE` loop with. -/
def emitToStack (obj : Value) :
    List StackState → Except String (Value ⊕ List StackState)
  | [] => .ok (.inl obj)
  | .arrayS size array position :: rest =>
    let array := array ++ [obj]
    let position := position + 1
    if position = size then
      emitToStack (.arr array) rest
    else
      .ok (.inr (.arrayS size array position :: rest))
  | .mapKeyS size readCount map :: rest =>
    if !isValidMapKeyType obj then
      .error "The type of key must be string or number"
    else if isProtoKey obj then
      .error "The key __proto__ is not allowed"
    else
      .ok (.inr (.mapValueS size (toMapKey obj) readCount map :: rest))
  | .mapValueS size key readCount map :: rest =>
    let map := recordSet map key obj
    let readCount := readCount + 1
    if readCount = size then
      emitToStack (.map map) rest
    else
      .ok (.inr (.mapKeyS size readCount map :: rest))

/-- `doDecodeSync`: the `DECODE` loop, fuel-indexed.  Every iteration
consumes at least the head byte, so any fuel exceeding the number of
available input bytes is sufficient. -/
def doDecodeSync {σ : Type} (cfg : Config) (S : SrcOps σ) :
    Nat → σ → List StackState → Except Err (Value × σ)
  | 0, _, _ => .error .outOfFuel
  | fuel+1, s, stack => do
    match ← stepDispatch cfg S s with
    | .obj object s =>
      match emitToStack object stack with
      | .error m => .error (.decodeError m)
      | .ok (.inl v) => .ok (v, s)
      | .ok (.inr stack') => doDecodeSync cfg S fuel s stack'
    | .pushArr size s =>
      match pushArrayState cfg size stack with
      | .error m => .error (.decodeError m)
      | .ok stack' => doDecodeSync cfg S fuel s stack'
    | .pushMap size s =>
      match pushMapState cfg size stack with
      | .error m => .error (.decodeError m)
      | .ok stack' => doDecodeSync cfg S fuel s stack'

/-- Modelled from the spec: the buffer-resident read-N-bytes primitive
(`Decoder.ts` is not among the provided sources; spec section 4.3.4 says it
is "a bounds check against the fixed buffer", failing with the
insufficient-data condition when the buffer is too short). -/
def flatReadBytes (n : Nat) (input : List Byte) :
    Except Err (List Byte × List Byte) :=
  if n ≤ input.length then .ok (input.take n, input.drop n) else .error .moreData

/-- The buffer-resident byte source over a complete in-memory buffer. -/
def flatSrc : SrcOps (List Byte) := ⟨flatReadBytes⟩

/-- One top-level decode over a complete buffer, returning the value and
the unconsumed suffix. -/
def decodeFlat (cfg : Config) (input : List Byte) :
    Except Err (Value × List Byte) :=
  doDecodeSync cfg flatSrc (input.length + 1) input []

/-- Modelled from the spec: the public buffer-resident `decode(bytes)`
(`Decoder.ts` is not among the provided sources): decode one value and
fail with the extra-byte range error if input remains (spec sections 4.3
and 7). -/
def decode (cfg : Config) (input : List Byte) : Except Err Value :=
  match decodeFlat cfg input with
  | .error e => .error e
  | .ok (v, rest) => if rest.isEmpty then .ok v else .error .extraBytes

/-- The streaming source state: `cap` is the scratch buffer's byte
capacity (`view.byteLength`); `data` are the bytes the pull source has not
yet delivered; `sched i` is the maximal number of bytes the pull source
chooses to deliver on its `i`-th invocation (the chunk boundaries);
`tick` counts invocations made so far. -/
structure StreamState where
  cap : Nat
  data : List Byte
  sched : Nat → Nat
  tick : Nat

/-- `ensureBufferSizeToWrite` from `StreamDecoder.ts`: when the scratch
capacity is below the requested size, `resizeBuffer(byteLength * 2)` -
the new capacity is twice the old one, whether or not that reaches the
requested size. -/
def ensureBufferSizeToWrite (cap sizeToWrite : Nat) : Nat :=
  if cap < sizeToWrite then cap * 2 else cap

/-- The accumulation loop of `readBytes`: while fewer than `length` bytes
have been obtained, invoke the pull source with the writable window
`bytes.subarray(pos, length)` - whose size is clamped by the scratch
capacity - and fail with `MORE_DATA` when the source delivers nothing
(window empty, source exhausted, or source returning `0`). -/
def pullLoop (cap length : Nat) :
    Nat → Nat → List Byte → List Byte → (Nat → Nat) → Nat →
    Except Err (List Byte × List Byte × Nat)
  | 0, _, _, _, _, _ => .error .outOfFuel
  | fuel+1, pos, acc, data, sched, tick =>
    if pos < length then
      let window := min length cap - pos
      let read := min window (min (sched tick) data.length)
      if read = 0 then
        .error .moreData
      else
        pullLoop cap length fuel (pos + read) (acc ++ data.take read)
          (data.drop read) sched (tick + 1)
    else
      .ok (acc, data, tick)

/-- `readBytes` from `StreamDecoder.ts` (stream path): ensure scratch
capacity by doubling once if short, then pull until `length` bytes have
accumulated, returning `bytes.subarray(0, length)` - the bytes written,
in delivery order. -/
def readBytesStream (length : Nat) (st : StreamState) :
    Except Err (List Byte × StreamState) := do
  let cap := ensureBufferSizeToWrite st.cap length
  let (acc, data, tick) ← pullLoop cap length (length + 1) 0 [] st.data st.sched st.tick
  pure (acc, { cap := cap, data := data, sched := st.sched, tick := tick })

/-- The streaming byte source. -/
def streamSrc : SrcOps StreamState := ⟨readBytesStream⟩

/-- `decodeStream(pullSource, options)` (`decode.ts` / `StreamDecoder.decode`):
construct a stream decoder with the default initial scratch capacity and
decode exactly one value from the pull source, delivering it to the
caller. -/
def decodeStream (cfg : Config) (data : List Byte) (sched : Nat → Nat) :
    Except Err Value :=
  match doDecodeSync cfg streamSrc (data.length + 1)
      { cap := DEFAULT_INITIAL_BUFFER_SIZE, data := data, sched := sched, tick := 0 } [] with
  | .error e => .error e
  | .ok (v, _) => .ok v


/-- Two's complement big-endian byte string of a signed integer
(`DataView.setIntN`). -/
def intBytes (k : Nat) (n : Int) : List Byte :=
  beBytes k (n % ((2 : Int) ^ (8 * k))).toNat

/-- Bytes of the wire format are in range. -/
def wfBytes (s : List Byte) : Bool := s.all (· < 256)

/-- Modelled from the spec: the encoder's integer dispatch (`Encoder.ts` is
not among the provided sources; spec section 4.2: single-byte fixint
encodings for small magnitudes, else the narrowest signed/unsigned
8/16/32/64-bit form matching the value's sign and magnitude). -/
def encodeNumber : JNum → Except String (List Byte)
  | .int n =>
    if 0 ≤ n then
      if n < 0x80 then .ok [n.toNat]
      else if n < 0x100 then .ok (0xcc :: beBytes 1 n.toNat)
      else if n < 0x10000 then .ok (0xcd :: beBytes 2 n.toNat)
      else if n < 4294967296 then .ok (0xce :: beBytes 4 n.toNat)
      else if n < 18446744073709551616 then .ok (0xcf :: beBytes 8 n.toNat)
      else .error "integer out of 64-bit range"
    else
      if -0x20 ≤ n then .ok [(n + 0x100).toNat]
      else if -0x80 ≤ n then .ok (0xd0 :: intBytes 1 n)
      else if -0x8000 ≤ n then .ok (0xd1 :: intBytes 2 n)
      else if -2147483648 ≤ n then .ok (0xd2 :: intBytes 4 n)
      else if -9223372036854775808 ≤ n then .ok (0xd3 :: intBytes 8 n)
      else .error "integer out of 64-bit range"
  | .f64 bits =>
    if bits < 18446744073709551616 then .ok (0xcb :: beBytes 8 bits)
    else .error "invalid float bit pattern"
  | .f32 _ => .error "float 32 is a decode-only format"

/-- Modelled from the spec: string header selection (inline length for
short strings, else 8/16/32-bit length-prefixed forms). -/
def strHeader (len : Nat) : Except String (List Byte) :=
  if len < 32 then .ok [0xa0 + len]
  else if len < 0x100 then .ok (0xd9 :: beBytes 1 len)
  else if len < 0x10000 then .ok (0xda :: beBytes 2 len)
  else if len < 4294967296 then .ok (0xdb :: beBytes 4 len)
  else .error "string too long"

/-- Modelled from the spec: binary header selection (8/16/32-bit
length-prefixed form chosen by byte length). -/
def binHeader (len : Nat) : Except String (List Byte) :=
  if len < 0x100 then .ok (0xc4 :: beBytes 1 len)
  else if len < 0x10000 then .ok (0xc5 :: beBytes 2 len)
  else if len < 4294967296 then .ok (0xc6 :: beBytes 4 len)
  else .error "binary too long"

/-- Modelled from the spec: array header selection (inline-length header
for small sizes, else 16/32-bit length-prefixed form). -/
def arrayHeader (len : Nat) : Except String (List Byte) :=
  if len < 16 then .ok [0x90 + len]
  else if len < 0x10000 then .ok (0xdc :: beBytes 2 len)
  else if len < 4294967296 then .ok (0xdd :: beBytes 4 len)
  else .error "array too long"

/-- Modelled from the spec: map header selection. -/
def mapHeader (len : Nat) : Except String (List Byte) :=
  if len < 16 then .ok [0x80 + len]
  else if len < 0x10000 then .ok (0xde :: beBytes 2 len)
  else if len < 4294967296 then .ok (0xdf :: beBytes 4 len)
  else .error "map too long"

/-- Modelled from the spec: extension header selection (fixed-size fixext
forms for payload lengths 1/2/4/8/16, else 8/16/32-bit length-prefixed
ext forms). -/
def extHeader (len : Nat) : Except String (List Byte) :=
  if len = 1 then .ok [0xd4]
  else if len = 2 then .ok [0xd5]
  else if len = 4 then .ok [0xd6]
  else if len = 8 then .ok [0xd7]
  else if len = 16 then .ok [0xd8]
  else if len < 0x100 then .ok (0xc7 :: beBytes 1 len)
  else if len < 0x10000 then .ok (0xc8 :: beBytes 2 len)
  else if len < 4294967296 then .ok (0xc9 :: beBytes 4 len)
  else .error "extension payload too long"

/-- Modelled from the spec: encoding one map key (a String or Integer per
spec section 3; JavaScript object keys are strings on the encode side). -/
def encodeMKey : MKey → Except String (List Byte)
  | .str s => do pure ((← strHeader s.length) ++ s)
  | .num n => encodeNumber n

mutual

/-- Modelled from the spec: `Encoder.encode(buffer, value, depth)`
(`Encoder.ts` is not among the provided sources; spec section 4.2): fail
with a depth-exceeded error past the configured maximum, otherwise
dispatch on the value's shape, emitting header bytes then payloads, with
each array element / map pair encoded at `depth + 1`. -/
def encodeValue (maxDepth depth : Nat) (v : Value) : Except String (List Byte) :=
  if depth > maxDepth then .error "Too deep objects in depth" else
  match v with
  | .nil => .ok [0xc0]
  | .bool false => .ok [0xc2]
  | .bool true => .ok [0xc3]
  | .num n => encodeNumber n
  | .str s => do pure ((← strHeader s.length) ++ s)
  | .bin b => do pure ((← binHeader b.length) ++ b)
  | .arr es => do pure ((← arrayHeader es.length) ++ (← encodeElems maxDepth (depth + 1) es))
  | .map kvs => do pure ((← mapHeader kvs.length) ++ (← encodeEntries maxDepth (depth + 1) kvs))
  | .ext t d => do pure ((← extHeader d.length) ++ intBytes 1 t ++ d)

/-- Array elements, in order. -/
def encodeElems (maxDepth depth : Nat) (es : List Value) : Except String (List Byte) :=
  match es with
  | [] => .ok []
  | v :: vs => do pure ((← encodeValue maxDepth depth v) ++ (← encodeElems maxDepth depth vs))

/-- Map pairs, in insertion order: key then value. -/
def encodeEntries (maxDepth depth : Nat) (kvs : List (MKey × Value)) :
    Except String (List Byte) :=
  match kvs with
  | [] => .ok []
  | (k, v) :: rest => do
    pure ((← encodeMKey k) ++ (← encodeValue maxDepth depth v) ++
      (← encodeEntries maxDepth depth rest))

end

/-- `encode(value)` from `src/encode.ts`: encode with the default maximum
depth 100, starting at depth 1. -/
def encode (v : Value) : Except String (List Byte) := encodeValue 100 1 v

/-- A well-formed map key on the encode side: JavaScript object keys are
UTF-8 strings of representable length; the `"__proto__"` key is excluded
(it can never round-trip, by the documented security invariant). -/
def wfKey : MKey → Bool
  | .str s => wfBytes s && decide (s.length < 4294967296) && !(s == protoBytes)
  | .num _ => false

mutual

/-- The supported-value universe of the round-trip property: nil,
booleans, 64-bit-range integers, floats by bit pattern, strings, binary,
arrays and maps of such values; map keys are distinct non-`"__proto__"`
strings (the documented map-key caveats), and every length fits its
32-bit wire length field. -/
def wfValue : Value → Bool
  | .nil => true
  | .bool _ => true
  | .num (.int n) => decide (-(2^63) ≤ n) && decide (n < 2^64)
  | .num (.f64 bits) => decide (bits < 2^64)
  | .num (.f32 _) => false
  | .str s => wfBytes s && decide (s.length < 4294967296)
  | .bin b => wfBytes b && decide (b.length < 4294967296)
  | .arr es => decide (es.length < 4294967296) && wfElems es
  | .map kvs => decide (kvs.length < 4294967296) && wfEntries kvs
  | .ext _ _ => false

/-- All elements well-formed. -/
def wfElems : List Value → Bool
  | [] => true
  | v :: vs => wfValue v && wfElems vs

/-- All pairs well-formed, with pairwise-distinct keys. -/
def wfEntries : List (MKey × Value) → Bool
  | [] => true
  | (k, v) :: rest =>
    wfKey k && !(rest.any (fun e => e.1 == k)) && wfValue v && wfEntries rest

end

mutual

/-- Number of `DECODE`-loop iterations (head bytes) consumed when decoding
an encoded value: one per scalar or container header, plus one per map
key. -/
def nodesValue : Value → Nat
  | .nil => 1
  | .bool _ => 1
  | .num _ => 1
  | .str _ => 1
  | .bin _ => 1
  | .arr es => 1 + nodesElems es
  | .map kvs => 1 + nodesEntries kvs
  | .ext _ _ => 1

/-- Iterations for a list of elements. -/
def nodesElems : List Value → Nat
  | [] => 0
  | v :: vs => nodesValue v + nodesElems vs

/-- Iterations for a list of pairs. -/
def nodesEntries : List (MKey × Value) → Nat
  | [] => 0
  | (_, v) :: rest => 1 + nodesValue v + nodesEntries rest

end

/-- A frame is "full on receipt": feeding it one more completed object
makes its running count reach its declared size.  An awaiting-key map
frame is never popped on receiving an object (it only switches phase). -/
def frameFull : StackState → Bool
  | .arrayS size _ position => position + 1 == size
  | .mapValueS size _ readCount _ => readCount + 1 == size
  | .mapKeyS _ _ _ => false

/-- The completed container produced when a full frame is popped. -/
def closeFrame : StackState → Value → Value
  | .arrayS _ array _, obj => .arr (array ++ [obj])
  | .mapValueS _ key _ m, obj => .map (recordSet m key obj)
  | .mapKeyS _ _ _, _ => .nil

/-- The updated frame when a non-full frame receives a completed object
(stores the element / validates and stores the key / stores the pair). -/
def recvFrame : StackState → Value → Except String StackState
  | .arrayS size array position, obj =>
    .ok (.arrayS size (array ++ [obj]) (position + 1))
  | .mapKeyS size readCount m, obj =>
    if !isValidMapKeyType obj then
      .error "The type of key must be string or number"
    else if isProtoKey obj then
      .error "The key __proto__ is not allowed"
    else
      .ok (.mapValueS size (toMapKey obj) readCount m)
  | .mapValueS size key readCount m, obj =>
    .ok (.mapKeyS size (readCount + 1) (recordSet m key obj))

/-- Every frame of the stack completes exactly on receiving the cascading
object: the declarative condition under which propagation pops the whole
stack and yields a final value. -/
def allCascadeFull : Value → List StackState → Bool
  | _, [] => true
  | obj, f :: st => frameFull f && allCascadeFull (closeFrame f obj) st

/-- The scratch-buffer heap model for view aliasing: `cap` is the current
capacity, `gen` the identity (generation) of the current backing buffer,
`bufs` the contents of every buffer ever allocated (index = generation),
`data` the bytes the source has not yet delivered. -/
structure AliasState where
  cap : Nat
  gen : Nat
  bufs : List (List Byte)
  data : List Byte

/-- Reading a returned `Uint8Array` view later: a view `(g, L)` is
`bytes.subarray(0, L)` of the buffer of generation `g`, so its observed
content is the current first `L` bytes of that buffer. -/
def observeView (st : AliasState) (v : Nat × Nat) : List Byte :=
  (st.bufs.getD v.1 []).take v.2

/-- `readBytes` in the aliasing model: `ensureBufferSizeToWrite` doubles
into a fresh zero buffer when capacity is short (`resizeBuffer` copies
nothing), then the pull loop writes the delivered bytes at offsets
`0..length` of the current buffer (an ideal source delivering everything
the window allows), and the result is the view `(generation, length)`. -/
def readBytesAlias (length : Nat) (st : AliasState) :
    Except Err ((Nat × Nat) × AliasState) :=
  let st :=
    if st.cap < length then
      { cap := st.cap * 2, gen := st.gen + 1,
        bufs := st.bufs ++ [List.replicate (st.cap * 2) 0], data := st.data }
    else st
  let window := min length st.cap
  let read := min window st.data.length
  if read < length then .error .moreData
  else
    let buf := st.data.take length ++ (st.bufs.getD st.gen []).drop length
    .ok ((st.gen, length),
      { cap := st.cap, gen := st.gen, bufs := st.bufs.set st.gen buf,
        data := st.data.drop length })

/-- `decodeBinary` over the aliasing model: length check, then a
`readBytes` view - the decoded binary IS the returned view, no copy. -/
def decodeBinaryAlias (cfg : Config) (byteLength : Nat) (st : AliasState) :
    Except Err ((Nat × Nat) × AliasState) :=
  if byteLength > cfg.maxBinLength then
    .error (.decodeError "Max length exceeded: bin length > maxBinLength")
  else readBytesAlias byteLength st

/-- A configuration with every limit set to 10, for limit-check witnesses. -/
def smallCfg : Config :=
  { maxStrLength := 10, maxBinLength := 10, maxArrayLength := 10,
    maxMapLength := 10, maxExtLength := 10,
    extDecode := fun _ _ => .error "Unrecognized extension type" }

/-- The wire message of a binary value of 4097 bytes: `bin 16` header
with length `0x1001` followed by the payload. -/
def binMsg4097 : List Byte := 0xc5 :: 0x10 :: 0x01 :: List.replicate 4097 7


/-- The decoder's scratch state at construction time (capacity 2048, one
fresh zero buffer) over a source holding 10 bytes of value 1 followed by
3000 bytes of value 2. -/
def aliasInit : AliasState :=
  { cap := DEFAULT_INITIAL_BUFFER_SIZE, gen := 0,
    bufs := [List.replicate 2048 0],
    data := List.replicate 10 1 ++ List.replicate 3000 2 }

/-- The scratch state after the first (10-byte) read of `aliasInit`. -/
def aliasS1 : AliasState :=
  { cap := 2048, gen := 0,
    bufs := [List.replicate 10 1 ++ List.replicate 2038 0],
    data := List.replicate 3000 2 }

/-- The scratch state after the second (3000-byte, resizing) read. -/
def aliasS2 : AliasState :=
  { cap := 4096, gen := 1,
    bufs := [List.replicate 10 1 ++ List.replicate 2038 0,
      List.replicate 3000 2 ++ List.replicate 1096 0],
    data := [] }

mutual

/-- No map anywhere inside the value carries the forbidden `"__proto__"`
key. -/
def vNoProto : Value → Bool
  | .arr es => listNoProto es
  | .map kvs => entriesNoProto kvs
  | _ => true

/-- `vNoProto` for every element. -/
def listNoProto : List Value → Bool
  | [] => true
  | v :: vs => vNoProto v && listNoProto vs

/-- No pair keyed `"__proto__"`, recursively. -/
def entriesNoProto : List (MKey × Value) → Bool
  | [] => true
  | (k, v) :: rest => !(k == MKey.str protoBytes) && vNoProto v && entriesNoProto rest

end

/-- The in-progress containers of a frame carry no `"__proto__"` key. -/
def frameNoProto : StackState → Bool
  | .arrayS _ array _ => listNoProto array
  | .mapKeyS _ _ m => entriesNoProto m
  | .mapValueS _ key _ m => !(key == MKey.str protoBytes) && entriesNoProto m

/-- `frameNoProto` for every frame of the stack. -/
def stackNoProto : List StackState → Bool
  | [] => true
  | f :: st => frameNoProto f && stackNoProto st

/-- Continuation of the `DECODE` loop after a completed object has been
fed to the stack: an error aborts, a final value returns with the
remaining input, a surviving stack resumes the loop. -/
def contEmit (cfg : Config) (fuel : Nat)
    (r : Except String (Value ⊕ List StackState)) (rest : List Byte) :
    Except Err (Value × List Byte) :=
  match r with
  | .error m => .error (.decodeError m)
  | .ok (.inl v) => .ok (v, rest)
  | .ok (.inr stack) => doDecodeSync cfg flatSrc fuel rest stack

theorem beBytes_length (k n : Nat) : (beBytes k n).length = k := by
  induction k generalizing n with
  | zero => rfl
  | succ k ih => simp [beBytes, ih]

theorem beNat_beBytes (k n : Nat) : beNat (beBytes k n) = n % 256 ^ k := by
  induction k generalizing n with
  | zero => simp [beBytes, beNat, Nat.mod_one]
  | succ k ih =>
    have h : (256 : Nat) ^ (k+1) = 256 ^ k * 256 := by ring
    rw [beBytes, beNat, beBytes_length, ih, h, Nat.mod_mul]
    ring

theorem beNat_beBytes_of_lt {k n : Nat} (h : n < 256 ^ k) :
    beNat (beBytes k n) = n := by
  rw [beNat_beBytes, Nat.mod_eq_of_lt h]

theorem pow256_eq (k : Nat) : (256 : Nat) ^ k = 2 ^ (8 * k) := by
  rw [show (256 : Nat) = 2 ^ 8 from rfl, ← pow_mul]

theorem beBytes_lt (k n : Nat) : ∀ b ∈ beBytes k n, b < 256 := by
  induction k generalizing n with
  | zero => simp [beBytes]
  | succ k ih =>
    intro b hb
    rw [beBytes] at hb
    rcases List.mem_cons.mp hb with h | h
    · subst h; exact Nat.mod_lt _ (by norm_num)
    · exact ih _ _ h

theorem intBytes_beNat (k : Nat) (n : Int) :
    beNat (intBytes k n) = (n % ((2 : Int) ^ (8 * k))).toNat := by
  have hm : (0 : Int) < 2 ^ (8 * k) := by positivity
  have hcast : ((2 ^ (8 * k) : Nat) : Int) = 2 ^ (8 * k) := by push_cast; ring
  have hlt : (n % ((2 : Int) ^ (8 * k))).toNat < 256 ^ k := by
    rw [pow256_eq]
    have := Int.emod_lt_of_pos n hm
    omega
  rw [intBytes, beNat_beBytes_of_lt hlt]

theorem sInterp_intBytes {k : Nat} (hk : 0 < k) {n : Int}
    (h1 : -(2 ^ (8 * k - 1)) ≤ n) (h2 : n < 2 ^ (8 * k - 1)) :
    sInterp k (beNat (intBytes k n)) = n := by
  have hsplit : (2 : Int) ^ (8 * k) = 2 * 2 ^ (8 * k - 1) := by
    rw [← pow_succ']
    congr 1
    omega
  have hm : (0 : Int) < 2 ^ (8 * k) := by positivity
  have c1 : ((2 ^ (8 * k - 1) : Nat) : Int) = 2 ^ (8 * k - 1) := by push_cast; ring
  have c2 : ((2 ^ (8 * k) : Nat) : Int) = 2 ^ (8 * k) := by push_cast; ring
  have hmod : n % ((2 : Int) ^ (8 * k)) = if 0 ≤ n then n else n + 2 ^ (8 * k) := by
    split
    · exact Int.emod_eq_of_lt (by assumption) (by omega)
    · have hrw : (n + 2 ^ (8 * k)) % ((2 : Int) ^ (8 * k)) = n % (2 ^ (8 * k)) := by
        have h := Int.add_mul_emod_self_left (a := n) (b := (2 : Int) ^ (8 * k)) (c := 1)
        rw [mul_one] at h
        exact h
      rw [← hrw, Int.emod_eq_of_lt (by omega) (by omega)]
  rw [intBytes_beNat, sInterp, hmod]
  split
  · rw [if_pos (by omega)]
    omega
  · rw [if_neg (by omega)]
    omega

theorem flatReadBytes_exact (bs rest : List Byte) :
    flatReadBytes bs.length (bs ++ rest) = .ok (bs, rest) := by
  unfold flatReadBytes
  rw [if_pos (by simp), List.take_left, List.drop_left]

theorem sInterp_of_lt {k u : Nat} (h : u < 2 ^ (8 * k - 1)) :
    sInterp k u = (u : Int) := by
  unfold sInterp
  rw [if_pos h]

example : decodeFlat defaultCfg [0xc0] = .ok (.nil, []) := rfl
example : decodeFlat defaultCfg [0x93, 0x01, 0x02, 0x03] =
    .ok (.arr [.num (.int 1), .num (.int 2), .num (.int 3)], []) := rfl
example : decodeFlat defaultCfg [0x81, 0xa1, 0x61, 0x01] =
    .ok (.map [(.str [0x61], .num (.int 1))], []) := rfl
example : decodeStream defaultCfg [0x81, 0xa1, 0x61, 0x01] (fun _ => 1) =
    .ok (.map [(.str [0x61], .num (.int 1))]) := rfl
example : decodeFlat defaultCfg [0xff] = .ok (.num (.int (-1)), []) := rfl
example : decodeFlat defaultCfg [0xcd, 0x12, 0x34] = .ok (.num (.int 0x1234), []) := rfl
example : decodeFlat defaultCfg [0xd1, 0xff, 0xfe] = .ok (.num (.int (-2)), []) := rfl

/-- C3: whenever a declared string/binary/extension/array/map length
exceeds its configured maximum, decoding fails with a decode error; the
failure is independent of the byte source (it holds even for an empty
source, where any attempt to read the payload would have produced the
insufficient-data condition instead) and precedes the frame or payload
allocation sized by the declared length. -/
theorem limit_checks_precede_allocation :
    ∀ (σ : Type) (S : SrcOps σ) (cfg : Config) (s : σ) (n : Nat)
      (stack : List StackState),
      (n > cfg.maxStrLength →
        decodeUtf8String cfg S n s =
          .error (.decodeError "Max length exceeded: UTF-8 byte length > maxStrLength")) ∧
      (n > cfg.maxBinLength →
        decodeBinary cfg S n s =
          .error (.decodeError "Max length exceeded: bin length > maxBinLength")) ∧
      (n > cfg.maxExtLength →
        decodeExtension cfg S n s =
          .error (.decodeError "Max length exceeded: ext length > maxExtLength")) ∧
      (n > cfg.maxArrayLength →
        pushArrayState cfg n stack =
          .error "Max length exceeded: array length > maxArrayLength") ∧
      (n > cfg.maxMapLength →
        pushMapState cfg n stack =
          .error "Max length exceeded: map length > maxMapLength") := by
  intro σ S cfg s n stack
  refine ⟨fun h => ?_, fun h => ?_, fun h => ?_, fun h => ?_, fun h => ?_⟩ <;>
    simp [decodeUtf8String, decodeBinary, decodeExtension, pushArrayState,
      pushMapState, h]

/-- Witness for C3 at concrete inputs: limits 10, declared length 11,
empty byte source. -/
theorem limit_checks_precede_allocation_witness :
    decodeUtf8String smallCfg flatSrc 11 [] =
      .error (.decodeError "Max length exceeded: UTF-8 byte length > maxStrLength") ∧
    decodeBinary smallCfg flatSrc 11 [] =
      .error (.decodeError "Max length exceeded: bin length > maxBinLength") ∧
    decodeExtension smallCfg flatSrc 11 [] =
      .error (.decodeError "Max length exceeded: ext length > maxExtLength") ∧
    pushArrayState smallCfg 11 [] =
      .error "Max length exceeded: array length > maxArrayLength" ∧
    pushMapState smallCfg 11 [] =
      .error "Max length exceeded: map length > maxMapLength" :=
  ⟨(limit_checks_precede_allocation _ flatSrc smallCfg [] 11 []).1 (by decide),
   (limit_checks_precede_allocation _ flatSrc smallCfg [] 11 []).2.1 (by decide),
   (limit_checks_precede_allocation _ flatSrc smallCfg [] 11 []).2.2.1 (by decide),
   (limit_checks_precede_allocation _ flatSrc smallCfg [] 11 []).2.2.2.1 (by decide),
   (limit_checks_precede_allocation _ flatSrc smallCfg [] 11 []).2.2.2.2 (by decide)⟩

theorem pullLoop_exhausted (cap length : Nat) :
    ∀ (fuel pos : Nat) (acc data : List Byte) (sched : Nat → Nat) (tick : Nat),
      pos + data.length < length → data.length < fuel →
      pullLoop cap length fuel pos acc data sched tick = .error .moreData := by
  intro fuel
  induction fuel with
  | zero => intro pos acc data sched tick h hf; omega
  | succ fuel ih =>
    intro pos acc data sched tick h hf
    rw [pullLoop]
    dsimp only
    rw [if_pos (by omega)]
    by_cases hr : min (min length cap - pos) (min (sched tick) data.length) = 0
    · rw [if_pos hr]
    · rw [if_neg hr]
      apply ih
      · simp only [List.length_drop]
        omega
      · simp only [List.length_drop]
        omega

/-- C9: when the pull source is exhausted before the `N` bytes required
by the current read are available, `readBytes` fails with the
insufficient-data condition (`MORE_DATA`), whose kind is distinct from
every structural decode error. -/
theorem stream_exhaustion_distinct :
    (∀ (n : Nat) (st : StreamState), st.data.length < n →
      readBytesStream n st = .error .moreData) ∧
    (∀ msg, Err.moreData ≠ Err.decodeError msg) := by
  constructor
  · intro n st h
    unfold readBytesStream
    dsimp only
    rw [pullLoop_exhausted (ensureBufferSizeToWrite st.cap n) n (n + 1) 0 []
      st.data st.sched st.tick (by omega) (by omega)]
    rfl
  · intro msg hc
    cases hc

/-- Witness for C9: a source holding one byte cannot satisfy a 3-byte
read. -/
theorem stream_exhaustion_distinct_witness :
    readBytesStream 3
      { cap := 2048, data := [7], sched := fun _ => 8, tick := 0 } =
      .error .moreData ∧ Err.moreData ≠ Err.decodeError "x" :=
  ⟨stream_exhaustion_distinct.1 3
      { cap := 2048, data := [7], sched := fun _ => 8, tick := 0 } (by decide),
   stream_exhaustion_distinct.2 "x"⟩

/-- C5 counterexample: the claim says a non-integer float map key causes
a decode failure, but `isValidMapKeyType` accepts every JavaScript
number, so a map keyed by the float 64 value 1.5 (bit pattern
`0x3FF8000000000000`) decodes successfully. -/
theorem float_map_key_accepted :
    decode defaultCfg
        [0x81, 0xcb, 0x3f, 0xf8, 0x00, 0x00, 0x00, 0x00, 0x00, 0x00, 0x01] =
      .ok (.map [(.num (.f64 0x3FF8000000000000), .num (.int 1))]) := rfl

/-- C5 amended: a completed map key must be a string or a number - any
completed key of another kind fails the decode with a decode error, but
numbers include the non-integer floats (`typeof` does not distinguish
integers), as witnessed by `float_map_key_accepted`. -/
theorem map_key_string_or_number :
    ∀ (obj : Value) (size readCount : Nat) (m : List (MKey × Value))
      (rest : List StackState),
      (isValidMapKeyType obj = false →
        emitToStack obj (.mapKeyS size readCount m :: rest) =
          .error "The type of key must be string or number") ∧
      (isValidMapKeyType obj = true ↔
        (∃ s, obj = .str s) ∨ ∃ x, obj = .num x) := by
  intro obj size readCount m rest
  constructor
  · intro h
    rw [emitToStack, h]
    rfl
  · cases obj <;> simp [isValidMapKeyType]

/-- Witness for C5 amended: a nil key is rejected; a string is a valid
key type. -/
theorem map_key_string_or_number_witness :
    emitToStack .nil [.mapKeyS 1 0 []] =
      .error "The type of key must be string or number" ∧
    (isValidMapKeyType (.str [97]) = true ↔
      (∃ s, Value.str [97] = .str s) ∨ ∃ x, Value.str [97] = .num x) :=
  ⟨(map_key_string_or_number .nil 1 0 [] []).1 (by decide),
   map_key_string_or_number (.str [97]) 1 0 [] [] |>.2⟩

theorem emitToStack_final_allCascadeFull :
    ∀ (st : List StackState) (obj v : Value),
      emitToStack obj st = .ok (.inl v) → allCascadeFull obj st = true := by
  intro st
  induction st with
  | nil => intro obj v _; rfl
  | cons f rest ih =>
    intro obj v h
    cases f with
    | arrayS size array position =>
      rw [emitToStack] at h
      by_cases hc : position + 1 = size
      · rw [if_pos hc] at h
        have := ih _ _ h
        simp [allCascadeFull, frameFull, closeFrame, hc, this]
      · rw [if_neg hc] at h
        cases h
    | mapKeyS size readCount m =>
      rw [emitToStack] at h
      by_cases h1 : !isValidMapKeyType obj
      · rw [if_pos h1] at h; cases h
      · rw [if_neg h1] at h
        by_cases h2 : isProtoKey obj
        · simp only [h2, if_true] at h; cases h
        · simp only [h2, if_false, Bool.false_eq_true] at h
          cases h
    | mapValueS size key readCount m =>
      rw [emitToStack] at h
      by_cases hc : readCount + 1 = size
      · rw [if_pos hc] at h
        have := ih _ _ h
        simp [allCascadeFull, frameFull, closeFrame, hc, this]
      · rw [if_neg hc] at h
        cases h

/-- C7: frame discipline of the propagation loop.  A full frame (running
count reaching declared size on this receipt) is popped exactly at that
moment, the completed container cascading to the remaining stack; a
non-full frame is never popped (the stack keeps the same tail, with only
the top frame updated); a final value arises exactly from the empty
stack, and only when every frame of the stack was popped at exactly its
declared size (`allCascadeFull`), so at successful completion no frame is
left dangling and none is popped twice. -/
theorem frame_pop_exactly_at_declared_size :
    ∀ (obj : Value) (f : StackState) (st : List StackState),
      (emitToStack obj [] = .ok (.inl obj)) ∧
      (frameFull f = true →
        emitToStack obj (f :: st) = emitToStack (closeFrame f obj) st) ∧
      (frameFull f = false →
        emitToStack obj (f :: st) =
          (recvFrame f obj).map (fun g => .inr (g :: st))) ∧
      (∀ v, emitToStack obj (f :: st) = .ok (.inl v) →
        allCascadeFull obj (f :: st) = true) := by
  intro obj f st
  refine ⟨rfl, ?_, ?_, fun v h => emitToStack_final_allCascadeFull _ _ _ h⟩
  · intro hfull
    cases f with
    | arrayS size array position =>
      have hc : position + 1 = size := by
        simpa [frameFull] using hfull
      rw [emitToStack]
      rw [if_pos hc]
      rfl
    | mapKeyS size readCount m => simp [frameFull] at hfull
    | mapValueS size key readCount m =>
      have hc : readCount + 1 = size := by
        simpa [frameFull] using hfull
      rw [emitToStack]
      rw [if_pos hc]
      rfl
  · intro hnot
    cases f with
    | arrayS size array position =>
      have hc : ¬ position + 1 = size := by
        simpa [frameFull] using hnot
      rw [emitToStack]
      rw [if_neg hc]
      rfl
    | mapKeyS size readCount m =>
      rw [emitToStack, recvFrame]
      by_cases h1 : !isValidMapKeyType obj
      · rw [if_pos h1, if_pos h1]; rfl
      · rw [if_neg h1, if_neg h1]
        by_cases h2 : isProtoKey obj
        · simp only [h2, if_true]; rfl
        · simp only [h2, if_false, Bool.false_eq_true]; rfl
    | mapValueS size key readCount m =>
      have hc : ¬ readCount + 1 = size := by
        simpa [frameFull] using hnot
      rw [emitToStack]
      rw [if_neg hc]
      rfl

/-- Witness for C7: a full one-element array frame pops into its parent;
a non-full frame is updated in place; the final value arose with every
frame popped at its size. -/
theorem frame_pop_exactly_at_declared_size_witness :
    emitToStack (.num (.int 7)) [.arrayS 1 [] 0] =
      emitToStack (.arr [.num (.int 7)]) [] ∧
    emitToStack (.num (.int 7)) [.arrayS 2 [] 0] =
      (recvFrame (.arrayS 2 [] 0) (.num (.int 7))).map
        (fun g => .inr [g]) ∧
    allCascadeFull (.num (.int 7)) [.arrayS 1 [] 0] = true :=
  ⟨(frame_pop_exactly_at_declared_size (.num (.int 7)) (.arrayS 1 [] 0) []).2.1
      (by decide),
   (frame_pop_exactly_at_declared_size (.num (.int 7)) (.arrayS 2 [] 0) []).2.2.1
      (by decide),
   (frame_pop_exactly_at_declared_size (.num (.int 7)) (.arrayS 1 [] 0) []).2.2.2
      (.arr [.num (.int 7)]) rfl⟩

theorem pullLoop_capped (cap length : Nat) (hcap : min length cap < length) :
    ∀ (fuel pos : Nat) (acc data : List Byte) (sched : Nat → Nat) (tick : Nat),
      pos ≤ min length cap → min length cap - pos < fuel →
      pullLoop cap length fuel pos acc data sched tick = .error .moreData := by
  intro fuel
  induction fuel with
  | zero => intro pos acc data sched tick h hf; omega
  | succ fuel ih =>
    intro pos acc data sched tick h hf
    rw [pullLoop]
    dsimp only
    rw [if_pos (by omega)]
    by_cases hr : min (min length cap - pos) (min (sched tick) data.length) = 0
    · rw [if_pos hr]
    · rw [if_neg hr]
      apply ih
      · omega
      · omega

theorem readBytesStream_capped (n : Nat) (st : StreamState)
    (h : ensureBufferSizeToWrite st.cap n < n) :
    readBytesStream n st = .error .moreData := by
  unfold readBytesStream
  dsimp only
  rw [pullLoop_capped (ensureBufferSizeToWrite st.cap n) n (by omega) (n + 1) 0 []
    st.data st.sched st.tick (by omega) (by omega)]
  rfl

theorem readBytesStream_single (n : Nat) (st : StreamState)
    (hcap : n ≤ st.cap) (hsched : n ≤ st.sched st.tick)
    (hdata : n ≤ st.data.length) (hn : 0 < n) :
    readBytesStream n st =
      .ok (st.data.take n,
        { cap := st.cap, data := st.data.drop n, sched := st.sched,
          tick := st.tick + 1 }) := by
  obtain ⟨m, rfl⟩ : ∃ m, n = m + 1 := ⟨n - 1, by omega⟩
  unfold readBytesStream
  dsimp only
  have hens : ensureBufferSizeToWrite st.cap (m + 1) = st.cap := by
    unfold ensureBufferSizeToWrite
    rw [if_neg (by omega)]
  rw [hens]
  rw [pullLoop]
  dsimp only
  rw [if_pos (by omega)]
  have hread : min (min (m + 1) st.cap - 0) (min (st.sched st.tick) st.data.length) = m + 1 := by
    omega
  rw [hread, if_neg (by omega)]
  rw [pullLoop]
  dsimp only
  rw [if_neg (by omega)]
  simp only [List.nil_append]
  rfl

/-- C6: `ensureBufferSizeToWrite` never shrinks and grows geometrically
(doubling), but it does NOT ensure a capacity of at least `N`: with the
default initial capacity 2048, a request for 4097 bytes resizes to 4096,
which is still short, and `readBytes(4097)` then fails with the
insufficient-data error even though the pull source holds all 4097
requested bytes and delivers maximally - contradicting the claim for `N`
larger than twice the current capacity. -/
theorem readBytes_capacity_not_ensured :
    (∀ cap n : Nat, cap ≤ ensureBufferSizeToWrite cap n ∧
      (ensureBufferSizeToWrite cap n = cap ∨
        ensureBufferSizeToWrite cap n = cap * 2)) ∧
    ensureBufferSizeToWrite DEFAULT_INITIAL_BUFFER_SIZE 4097 < 4097 ∧
    readBytesStream 4097
      { cap := DEFAULT_INITIAL_BUFFER_SIZE, data := List.replicate 4097 7,
        sched := fun _ => 4097, tick := 0 } = .error .moreData ∧
    (List.replicate 4097 (7 : Byte)).length = 4097 := by
  refine ⟨?_, by decide, ?_, by rw [List.length_replicate]⟩
  · intro cap n
    unfold ensureBufferSizeToWrite
    refine ⟨by split <;> omega, ?_⟩
    split
    · right; rfl
    · left; rfl
  · exact readBytesStream_capped 4097 _ (by decide)

theorem exOkBind {ε α β : Type} (a : α) (f : α → Except ε β) :
    (Except.ok a >>= f) = f a := rfl

theorem exErrBind {ε α β : Type} (e : ε) (f : α → Except ε β) :
    ((Except.error e : Except ε α) >>= f) = Except.error e := rfl

theorem flatReadBytes_one (a : Byte) (l : List Byte) :
    flatReadBytes 1 (a :: l) = .ok ([a], l) := by
  have h := flatReadBytes_exact [a] l
  simpa using h

theorem flatReadBytes_two (a b : Byte) (l : List Byte) :
    flatReadBytes 2 (a :: b :: l) = .ok ([a, b], l) := by
  have h := flatReadBytes_exact [a, b] l
  simpa using h

theorem beNat_two (a b : Byte) : beNat [a, b] = a * 256 + b := by
  simp [beNat]

theorem take_one_cons (a : Byte) (l : List Byte) : (a :: l).take 1 = [a] := rfl

theorem drop_one_cons (a : Byte) (l : List Byte) : (a :: l).drop 1 = l := rfl

theorem take_two_cons (a b : Byte) (l : List Byte) : (a :: b :: l).take 2 = [a, b] := rfl

theorem drop_two_cons (a b : Byte) (l : List Byte) : (a :: b :: l).drop 2 = l := rfl

theorem readU8_flat (a : Byte) (l : List Byte) :
    readU8 flatSrc (a :: l) = .ok (a, l) := by
  unfold readU8
  rw [show flatSrc.readBytes = flatReadBytes from rfl, flatReadBytes_one, exOkBind]
  show Except.ok (beNat [a], l) = Except.ok (a, l)
  simp [beNat]

theorem readU16_flat (a b : Byte) (l : List Byte) :
    readU16 flatSrc (a :: b :: l) = .ok (a * 256 + b, l) := by
  unfold readU16
  rw [show flatSrc.readBytes = flatReadBytes from rfl, flatReadBytes_two, exOkBind]
  show Except.ok (beNat [a, b], l) = Except.ok (a * 256 + b, l)
  rw [beNat_two]

theorem decodeFlat_bin16 (cfg : Config) (b1 b0 : Byte) (payload : List Byte)
    (hlen : payload.length = b1 * 256 + b0)
    (hmax : ¬ b1 * 256 + b0 > cfg.maxBinLength) :
    decodeFlat cfg (0xc5 :: b1 :: b0 :: payload) = .ok (.bin payload, []) := by
  unfold decodeFlat
  simp only [List.length_cons]
  rw [doDecodeSync]
  rw [stepDispatch]
  rw [readU8_flat, exOkBind]
  norm_num
  rw [readU16_flat, exOkBind]
  norm_num
  rw [decodeBinary]
  rw [if_neg hmax]
  rw [show flatSrc.readBytes = flatReadBytes from rfl]
  rw [← hlen]
  have hpay := flatReadBytes_exact payload []
  rw [List.append_nil] at hpay
  rw [hpay]
  rfl

theorem readU8_stream (st : StreamState) (a : Byte) (l : List Byte)
    (hd : st.data = a :: l) (hcap : 1 ≤ st.cap) (hsched : 1 ≤ st.sched st.tick) :
    readU8 streamSrc st =
      .ok (a, { cap := st.cap, data := l, sched := st.sched, tick := st.tick + 1 }) := by
  unfold readU8
  rw [show streamSrc.readBytes = readBytesStream from rfl]
  rw [readBytesStream_single 1 st hcap hsched (by rw [hd]; simp) (by omega)]
  rw [hd, take_one_cons, drop_one_cons, exOkBind]
  simp only [beNat, List.length_nil, pow_zero, mul_one, add_zero]
  rfl

theorem readU16_stream (st : StreamState) (a b : Byte) (l : List Byte)
    (hd : st.data = a :: b :: l) (hcap : 2 ≤ st.cap) (hsched : 2 ≤ st.sched st.tick) :
    readU16 streamSrc st =
      .ok (a * 256 + b,
        { cap := st.cap, data := l, sched := st.sched, tick := st.tick + 1 }) := by
  unfold readU16
  rw [show streamSrc.readBytes = readBytesStream from rfl]
  rw [readBytesStream_single 2 st hcap hsched (by rw [hd]; simp) (by omega)]
  rw [hd, take_two_cons, drop_two_cons, exOkBind]
  simp only [beNat, List.length_cons, List.length_nil, pow_zero, mul_one, add_zero,
    zero_add, pow_one]
  rfl

theorem decodeStream_bin16_capped (cfg : Config) (b1 b0 : Byte)
    (payload : List Byte) (sched : Nat → Nat)
    (_hlen : payload.length = b1 * 256 + b0)
    (hmax : ¬ b1 * 256 + b0 > cfg.maxBinLength)
    (hs0 : 1 ≤ sched 0) (hs1 : 2 ≤ sched 1)
    (hcap : ensureBufferSizeToWrite DEFAULT_INITIAL_BUFFER_SIZE (b1 * 256 + b0) <
      b1 * 256 + b0) :
    decodeStream cfg (0xc5 :: b1 :: b0 :: payload) sched = .error .moreData := by
  unfold decodeStream
  simp only [List.length_cons]
  rw [doDecodeSync]
  rw [stepDispatch]
  rw [readU8_stream _ 0xc5 (b1 :: b0 :: payload) rfl
    (by show (1 : Nat) ≤ DEFAULT_INITIAL_BUFFER_SIZE; decide) hs0]
  rw [exOkBind]
  norm_num
  rw [readU16_stream _ b1 b0 payload rfl
    (by show (2 : Nat) ≤ DEFAULT_INITIAL_BUFFER_SIZE; decide) hs1]
  rw [exOkBind]
  norm_num
  rw [decodeBinary]
  rw [if_neg hmax]
  rw [show streamSrc.readBytes = readBytesStream from rfl]
  rw [readBytesStream_capped (b1 * 256 + b0) _ hcap]
  rfl

/-- C2: divergence between the two paths.  The valid encoded buffer
holding a binary value of 4097 bytes decodes on the buffer-resident path
to that value with nothing left over, yet the streaming path fails with
the insufficient-data error for EVERY chunking (here: a source willing to
deliver everything at once), because the scratch buffer is only doubled
to 4096 and the pull window is clamped to it - so the two paths do not
produce identical results. -/
theorem stream_vs_buffer_divergence :
    decodeStream defaultCfg binMsg4097 (fun _ => 4100) = .error .moreData ∧
    decodeFlat defaultCfg binMsg4097 = .ok (.bin (List.replicate 4097 7), []) := by
  constructor
  · rw [show binMsg4097 = 0xc5 :: 0x10 :: 0x01 :: List.replicate 4097 7 from rfl]
    exact decodeStream_bin16_capped defaultCfg 0x10 0x01 _ _
      (by rw [List.length_replicate]) (by decide) (by decide) (by decide) (by decide)
  · rw [show binMsg4097 = 0xc5 :: 0x10 :: 0x01 :: List.replicate 4097 7 from rfl]
    exact decodeFlat_bin16 defaultCfg 0x10 0x01 _
      (by rw [List.length_replicate]) (by decide)

theorem readBytesAlias_no_resize (n : Nat) (st : AliasState)
    (h1 : n ≤ st.cap) (h2 : n ≤ st.data.length) :
    readBytesAlias n st = .ok ((st.gen, n),
      { cap := st.cap, gen := st.gen,
        bufs := st.bufs.set st.gen
          (st.data.take n ++ ((st.bufs.getD st.gen []).drop n)),
        data := st.data.drop n }) := by
  unfold readBytesAlias
  dsimp only
  rw [if_neg (show ¬ st.cap < n from by omega)]
  rw [if_neg (show ¬ min (min n st.cap) st.data.length < n from by omega)]

theorem getD_append_length (l : List (List Byte)) (b : List Byte) :
    (l ++ [b]).getD l.length [] = b := by
  induction l with
  | nil => rfl
  | cons a l ih => simp only [List.cons_append, List.length_cons, List.getD_cons_succ]; exact ih

theorem readBytesAlias_resize (n : Nat) (st : AliasState)
    (h0 : st.bufs.length = st.gen + 1)
    (h1 : st.cap < n) (h2 : n ≤ st.cap * 2) (h3 : n ≤ st.data.length) :
    readBytesAlias n st = .ok ((st.gen + 1, n),
      { cap := st.cap * 2, gen := st.gen + 1,
        bufs := (st.bufs ++ [List.replicate (st.cap * 2) 0]).set (st.gen + 1)
          (st.data.take n ++ ((List.replicate (st.cap * 2) 0).drop n)),
        data := st.data.drop n }) := by
  unfold readBytesAlias
  dsimp only
  rw [if_pos h1]
  dsimp only
  rw [if_neg (show ¬ min (min n (st.cap * 2)) st.data.length < n from by omega)]
  rw [show st.gen + 1 = st.bufs.length from by omega]
  rw [getD_append_length]

/-- C10 amended: a decoded binary of length `L` is returned as the view
`(current generation, L)` aliasing the first `L` bytes of the scratch
buffer, whose observed content at return time is exactly the decoded
bytes; a subsequent read that does NOT trigger a resize (its length fits
the current capacity) overwrites the view, which then observes the
subsequent read's bytes instead.  (A resizing read allocates a fresh
buffer and leaves the old view's content intact - see the
counterexample `resize_leaves_previous_binary_unchanged`.) -/
theorem binary_views_alias_scratch (cfg : Config) (st s1 s2 : AliasState)
    (n1 n2 : Nat) (v1 v2 : Nat × Nat)
    (h0 : st.bufs.length = st.gen + 1)
    (h1 : n1 ≤ st.cap) (h2 : n1 ≤ st.data.length)
    (h3 : n1 ≤ n2) (h4 : n2 ≤ st.cap) (h5 : n2 ≤ st.data.length - n1)
    (e1 : decodeBinaryAlias cfg n1 st = .ok (v1, s1))
    (e2 : readBytesAlias n2 s1 = .ok (v2, s2)) :
    v1 = (s1.gen, n1) ∧
    observeView s1 v1 = st.data.take n1 ∧
    observeView s2 v1 = s1.data.take n1 := by
  unfold decodeBinaryAlias at e1
  split at e1
  · cases e1
  · rw [readBytesAlias_no_resize n1 st h1 h2] at e1
    rw [Except.ok.injEq, Prod.mk.injEq] at e1
    obtain ⟨hv, hs⟩ := e1
    subst hs
    subst hv
    rw [readBytesAlias_no_resize n2
      { cap := st.cap, gen := st.gen,
        bufs := st.bufs.set st.gen
          (List.take n1 st.data ++ List.drop n1 (st.bufs.getD st.gen [])),
        data := List.drop n1 st.data }
      h4
      (by show n2 ≤ (List.drop n1 st.data).length
          rw [List.length_drop]; omega)] at e2
    rw [Except.ok.injEq, Prod.mk.injEq] at e2
    obtain ⟨hv2, hs2⟩ := e2
    subst hs2
    subst hv2
    refine ⟨rfl, ?_, ?_⟩
    · unfold observeView
      dsimp only
      rw [List.getD_eq_getElem _ _ (by rw [List.length_set]; omega),
        List.getElem_set_self]
      rw [List.take_left' (by rw [List.length_take]; omega)]
    · unfold observeView
      dsimp only
      rw [List.getD_eq_getElem _ _ (by rw [List.length_set, List.length_set]; omega),
        List.getElem_set_self]
      rw [List.take_append_eq_append_take]
      rw [List.length_take]
      rw [show n1 - min n2 (List.drop n1 st.data).length = 0 from by
        rw [List.length_drop]; omega]
      rw [List.take_zero, List.append_nil, List.take_take]
      rw [show min n1 n2 = n1 from by omega]

/-- Witness for C10 amended, at a small concrete scratch state: a 2-byte
binary view aliases the buffer prefix, and a following non-resizing
3-byte read overwrites it. -/
theorem binary_views_alias_scratch_witness :
    ((0, 2) : Nat × Nat) = ((⟨4, 0, [[1, 2, 0, 0]], [3, 4, 5]⟩ : AliasState).gen, 2) ∧
    observeView ⟨4, 0, [[1, 2, 0, 0]], [3, 4, 5]⟩ (0, 2) = [1, 2] ∧
    observeView ⟨4, 0, [[3, 4, 5, 0]], []⟩ (0, 2) = [3, 4] := by
  have h := binary_views_alias_scratch defaultCfg
    ⟨4, 0, [[0, 0, 0, 0]], [1, 2, 3, 4, 5]⟩
    ⟨4, 0, [[1, 2, 0, 0]], [3, 4, 5]⟩
    ⟨4, 0, [[3, 4, 5, 0]], []⟩ 2 3 (0, 2) (0, 3)
    (by decide) (by decide) (by decide) (by decide) (by decide) (by decide)
    rfl rfl
  exact ⟨h.1, h.2.1.trans (by decide), h.2.2.trans (by decide)⟩

theorem set_singleton (a b : List Byte) : [a].set 0 b = [b] := rfl

theorem set_second (a b c : List Byte) : [a, b].set 1 c = [a, c] := rfl

/-- C10 counterexample: the claim says ANY subsequent read by the same
decoder overwrites a previously returned binary view, but a subsequent
read that triggers a resize writes into a freshly allocated buffer: after
a 10-byte binary view is returned and a 3000-byte read resizes the
scratch (2048 to 4096), the old view still observes its original bytes
(ten 1s), not the ten 2s that the second read delivered. -/
theorem resize_leaves_previous_binary_unchanged :
    decodeBinaryAlias defaultCfg 10 aliasInit = .ok ((0, 10), aliasS1) ∧
    decodeBinaryAlias defaultCfg 3000 aliasS1 = .ok ((1, 3000), aliasS2) ∧
    observeView aliasS2 (0, 10) = List.replicate 10 1 ∧
    (observeView aliasS2 (1, 3000)).take 10 = List.replicate 10 2 := by
  refine ⟨?_, ?_, ?_, ?_⟩
  · unfold decodeBinaryAlias
    rw [if_neg (by decide)]
    rw [readBytesAlias_no_resize 10 aliasInit (by decide)
      (by show 10 ≤ (List.replicate 10 1 ++ List.replicate 3000 2).length
          rw [List.length_append, List.length_replicate, List.length_replicate]
          omega)]
    rw [show aliasInit.data = List.replicate 10 1 ++ List.replicate 3000 2 from rfl]
    rw [List.take_left' (by rw [List.length_replicate])]
    rw [List.drop_left' (by rw [List.length_replicate])]
    rw [show aliasInit.bufs.getD aliasInit.gen [] = List.replicate 2048 0 from rfl]
    rw [List.drop_replicate]
    rw [show (2048 - 10 : Nat) = 2038 from rfl]
    rw [show aliasInit.bufs = [List.replicate 2048 0] from rfl]
    rw [show aliasInit.gen = 0 from rfl]
    rw [set_singleton]
    rfl
  · unfold decodeBinaryAlias
    rw [if_neg (by decide)]
    rw [readBytesAlias_resize 3000 aliasS1 (by decide) (by decide) (by decide)
      (by show 3000 ≤ (List.replicate 3000 2).length
          rw [List.length_replicate])]
    rw [show aliasS1.cap * 2 = 4096 from rfl]
    rw [show aliasS1.data = List.replicate 3000 2 from rfl]
    rw [List.take_replicate]
    rw [show min 3000 3000 = 3000 from rfl]
    rw [List.drop_replicate]
    rw [List.drop_replicate]
    rw [show (4096 - 3000 : Nat) = 1096 from rfl]
    rw [show (3000 - 3000 : Nat) = 0 from rfl, List.replicate_zero]
    rw [show aliasS1.bufs ++ [List.replicate 4096 0] =
      [List.replicate 10 1 ++ List.replicate 2038 0, List.replicate 4096 0] from rfl]
    rw [show aliasS1.gen + 1 = 1 from rfl]
    rw [set_second]
    rfl
  · unfold observeView
    rw [show aliasS2.bufs.getD 0 [] =
      List.replicate 10 1 ++ List.replicate 2038 0 from rfl]
    rw [List.take_left' (by rw [List.length_replicate])]
  · unfold observeView
    rw [show aliasS2.bufs.getD 1 [] =
      List.replicate 3000 2 ++ List.replicate 1096 0 from rfl]
    rw [List.take_left' (by rw [List.length_replicate])]
    rw [List.take_replicate]
    rw [show min 10 3000 = 10 from rfl]

theorem exBind_eq_ok {ε α β : Type} {x : Except ε α} {f : α → Except ε β} {b : β}
    (h : (x >>= f) = .ok b) : ∃ a, x = .ok a ∧ f a = .ok b := by
  cases x with
  | ok a => exact ⟨a, rfl, h⟩
  | error e => exact Except.noConfusion h

theorem listNoProto_append (l1 l2 : List Value) :
    listNoProto (l1 ++ l2) = (listNoProto l1 && listNoProto l2) := by
  induction l1 with
  | nil => simp [listNoProto]
  | cons v vs ih => simp [listNoProto, ih, Bool.and_assoc]

theorem recordSet_noProto (m : List (MKey × Value)) (k : MKey) (v : Value)
    (hm : entriesNoProto m = true) (hk : (k == MKey.str protoBytes) = false)
    (hv : vNoProto v = true) : entriesNoProto (recordSet m k v) = true := by
  induction m with
  | nil => simp [recordSet, entriesNoProto, hk, hv]
  | cons e rest ih =>
    obtain ⟨k', v'⟩ := e
    rw [entriesNoProto] at hm
    simp only [Bool.and_eq_true] at hm
    rw [recordSet]
    split
    · rw [entriesNoProto]
      simp [hm.1.1, hv, hm.2]
    · rw [entriesNoProto]
      simp [hm.1.1, hm.1.2, ih hm.2]

theorem decodeExtension_ok {σ : Type} (cfg : Config) (S : SrcOps σ) (n : Nat)
    (s : σ) (v : Value) (s' : σ) (h : decodeExtension cfg S n s = .ok (v, s')) :
    ∃ t d, cfg.extDecode t d = .ok v := by
  unfold decodeExtension at h
  split at h
  · exact Except.noConfusion h
  · obtain ⟨⟨t, s1⟩, -, h⟩ := exBind_eq_ok h
    dsimp only at h
    obtain ⟨⟨d, s2⟩, -, h⟩ := exBind_eq_ok h
    dsimp only at h
    split at h
    · rename_i w hw
      refine ⟨t, d, ?_⟩
      rw [hw]
      rw [Except.ok.injEq, Prod.mk.injEq] at h
      rw [h.1]
    · exact Except.noConfusion h

set_option maxRecDepth 8192 in
theorem stepDispatch_obj_pred {σ : Type} (P : Value → Bool) (cfg : Config)
    (S : SrcOps σ) (s : σ)
    (hnil : P .nil = true) (hbool : ∀ b, P (.bool b) = true)
    (hnum : ∀ x, P (.num x) = true) (hstr : ∀ x, P (.str x) = true)
    (hbin : ∀ x, P (.bin x) = true) (harr : P (.arr []) = true)
    (hmap : P (.map []) = true)
    (hext : ∀ t d v, cfg.extDecode t d = .ok v → P v = true)
    (v : Value) (s' : σ) (h : stepDispatch cfg S s = .ok (.obj v s')) :
    P v = true := by
  unfold stepDispatch at h
  obtain ⟨⟨hb, s1⟩, -, h⟩ := exBind_eq_ok h
  dsimp only at h
  by_cases c0 : 0xe0 ≤ hb
  · rw [if_pos c0] at h
    have hv := Except.ok.inj h
    injection hv with hv1 hv2
    subst hv1
    exact hnum _
  · rw [if_neg c0] at h
    by_cases c1 : hb < 0xc0
    · rw [if_pos c1] at h
      by_cases d1 : hb < 0x80
      · rw [if_pos d1] at h
        have hv := Except.ok.inj h
        injection hv with hv1 hv2
        subst hv1
        exact hnum _
      · rw [if_neg d1] at h
        by_cases d2 : hb < 0x90
        · rw [if_pos d2] at h
          by_cases cz : hb - 0x80 ≠ 0
          · rw [if_pos cz] at h
            have hv := Except.ok.inj h
            exact DispResult.noConfusion hv
          · rw [if_neg cz] at h
            have hv := Except.ok.inj h
            injection hv with hv1 hv2
            subst hv1
            exact hmap
        · rw [if_neg d2] at h
          by_cases d3 : hb < 0xa0
          · rw [if_pos d3] at h
            by_cases cz : hb - 0x90 ≠ 0
            · rw [if_pos cz] at h
              have hv := Except.ok.inj h
              exact DispResult.noConfusion hv
            · rw [if_neg cz] at h
              have hv := Except.ok.inj h
              injection hv with hv1 hv2
              subst hv1
              exact harr
          · rw [if_neg d3] at h
            obtain ⟨⟨y1, y2⟩, hx, h⟩ := exBind_eq_ok h
            dsimp only at h
            have hv := Except.ok.inj h
            injection hv with hv1 hv2
            subst hv1
            exact hstr _
    · rw [if_neg c1] at h
      by_cases c2 : hb = 0xc0
      · rw [if_pos c2] at h
        have hv := Except.ok.inj h
        injection hv with hv1 hv2
        subst hv1
        exact hnil
      · rw [if_neg c2] at h
        by_cases c3 : hb = 0xc2
        · rw [if_pos c3] at h
          have hv := Except.ok.inj h
          injection hv with hv1 hv2
          subst hv1
          exact hbool _
        · rw [if_neg c3] at h
          by_cases c4 : hb = 0xc3
          · rw [if_pos c4] at h
            have hv := Except.ok.inj h
            injection hv with hv1 hv2
            subst hv1
            exact hbool _
          · rw [if_neg c4] at h
            by_cases c5 : hb = 0xca
            · rw [if_pos c5] at h
              obtain ⟨⟨y1, y2⟩, hx, h⟩ := exBind_eq_ok h
              dsimp only at h
              have hv := Except.ok.inj h
              injection hv with hv1 hv2
              subst hv1
              exact hnum _
            · rw [if_neg c5] at h
              by_cases c6 : hb = 0xcb
              · rw [if_pos c6] at h
                obtain ⟨⟨y1, y2⟩, hx, h⟩ := exBind_eq_ok h
                dsimp only at h
                have hv := Except.ok.inj h
                injection hv with hv1 hv2
                subst hv1
                exact hnum _
              · rw [if_neg c6] at h
                by_cases c7 : hb = 0xcc
                · rw [if_pos c7] at h
                  obtain ⟨⟨y1, y2⟩, hx, h⟩ := exBind_eq_ok h
                  dsimp only at h
                  have hv := Except.ok.inj h
                  injection hv with hv1 hv2
                  subst hv1
                  exact hnum _
                · rw [if_neg c7] at h
                  by_cases c8 : hb = 0xcd
                  · rw [if_pos c8] at h
                    obtain ⟨⟨y1, y2⟩, hx, h⟩ := exBind_eq_ok h
                    dsimp only at h
                    have hv := Except.ok.inj h
                    injection hv with hv1 hv2
                    subst hv1
                    exact hnum _
                  · rw [if_neg c8] at h
                    by_cases c9 : hb = 0xce
                    · rw [if_pos c9] at h
                      obtain ⟨⟨y1, y2⟩, hx, h⟩ := exBind_eq_ok h
                      dsimp only at h
                      have hv := Except.ok.inj h
                      injection hv with hv1 hv2
                      subst hv1
                      exact hnum _
                    · rw [if_neg c9] at h
                      by_cases c10 : hb = 0xcf
                      · rw [if_pos c10] at h
                        obtain ⟨⟨y1, y2⟩, hx, h⟩ := exBind_eq_ok h
                        dsimp only at h
                        have hv := Except.ok.inj h
                        injection hv with hv1 hv2
                        subst hv1
                        exact hnum _
                      · rw [if_neg c10] at h
                        by_cases c11 : hb = 0xd0
                        · rw [if_pos c11] at h
                          obtain ⟨⟨y1, y2⟩, hx, h⟩ := exBind_eq_ok h
                          dsimp only at h
                          have hv := Except.ok.inj h
                          injection hv with hv1 hv2
                          subst hv1
                          exact hnum _
                        · rw [if_neg c11] at h
                          by_cases c12 : hb = 0xd1
                          · rw [if_pos c12] at h
                            obtain ⟨⟨y1, y2⟩, hx, h⟩ := exBind_eq_ok h
                            dsimp only at h
                            have hv := Except.ok.inj h
                            injection hv with hv1 hv2
                            subst hv1
                            exact hnum _
                          · rw [if_neg c12] at h
                            by_cases c13 : hb = 0xd2
                            · rw [if_pos c13] at h
                              obtain ⟨⟨y1, y2⟩, hx, h⟩ := exBind_eq_ok h
                              dsimp only at h
                              have hv := Except.ok.inj h
                              injection hv with hv1 hv2
                              subst hv1
                              exact hnum _
                            · rw [if_neg c13] at h
                              by_cases c14 : hb = 0xd3
                              · rw [if_pos c14] at h
                                obtain ⟨⟨y1, y2⟩, hx, h⟩ := exBind_eq_ok h
                                dsimp only at h
                                have hv := Except.ok.inj h
                                injection hv with hv1 hv2
                                subst hv1
                                exact hnum _
                              · rw [if_neg c14] at h
                                by_cases c15 : hb = 0xd9
                                · rw [if_pos c15] at h
                                  obtain ⟨⟨y1, y2⟩, hx, h⟩ := exBind_eq_ok h
                                  dsimp only at h
                                  obtain ⟨⟨y1, y2⟩, hx, h⟩ := exBind_eq_ok h
                                  dsimp only at h
                                  have hv := Except.ok.inj h
                                  injection hv with hv1 hv2
                                  subst hv1
                                  exact hstr _
                                · rw [if_neg c15] at h
                                  by_cases c16 : hb = 0xda
                                  · rw [if_pos c16] at h
                                    obtain ⟨⟨y1, y2⟩, hx, h⟩ := exBind_eq_ok h
                                    dsimp only at h
                                    obtain ⟨⟨y1, y2⟩, hx, h⟩ := exBind_eq_ok h
                                    dsimp only at h
                                    have hv := Except.ok.inj h
                                    injection hv with hv1 hv2
                                    subst hv1
                                    exact hstr _
                                  · rw [if_neg c16] at h
                                    by_cases c17 : hb = 0xdb
                                    · rw [if_pos c17] at h
                                      obtain ⟨⟨y1, y2⟩, hx, h⟩ := exBind_eq_ok h
                                      dsimp only at h
                                      obtain ⟨⟨y1, y2⟩, hx, h⟩ := exBind_eq_ok h
                                      dsimp only at h
                                      have hv := Except.ok.inj h
                                      injection hv with hv1 hv2
                                      subst hv1
                                      exact hstr _
                                    · rw [if_neg c17] at h
                                      by_cases c18 : hb = 0xdc
                                      · rw [if_pos c18] at h
                                        obtain ⟨⟨y1, y2⟩, hx, h⟩ := exBind_eq_ok h
                                        dsimp only at h
                                        by_cases cz : y1 ≠ 0
                                        · rw [if_pos cz] at h
                                          have hv := Except.ok.inj h
                                          exact DispResult.noConfusion hv
                                        · rw [if_neg cz] at h
                                          have hv := Except.ok.inj h
                                          injection hv with hv1 hv2
                                          subst hv1
                                          exact harr
                                      · rw [if_neg c18] at h
                                        by_cases c19 : hb = 0xdd
                                        · rw [if_pos c19] at h
                                          obtain ⟨⟨y1, y2⟩, hx, h⟩ := exBind_eq_ok h
                                          dsimp only at h
                                          by_cases cz : y1 ≠ 0
                                          · rw [if_pos cz] at h
                                            have hv := Except.ok.inj h
                                            exact DispResult.noConfusion hv
                                          · rw [if_neg cz] at h
                                            have hv := Except.ok.inj h
                                            injection hv with hv1 hv2
                                            subst hv1
                                            exact harr
                                        · rw [if_neg c19] at h
                                          by_cases c20 : hb = 0xde
                                          · rw [if_pos c20] at h
                                            obtain ⟨⟨y1, y2⟩, hx, h⟩ := exBind_eq_ok h
                                            dsimp only at h
                                            by_cases cz : y1 ≠ 0
                                            · rw [if_pos cz] at h
                                              have hv := Except.ok.inj h
                                              exact DispResult.noConfusion hv
                                            · rw [if_neg cz] at h
                                              have hv := Except.ok.inj h
                                              injection hv with hv1 hv2
                                              subst hv1
                                              exact hmap
                                          · rw [if_neg c20] at h
                                            by_cases c21 : hb = 0xdf
                                            · rw [if_pos c21] at h
                                              obtain ⟨⟨y1, y2⟩, hx, h⟩ := exBind_eq_ok h
                                              dsimp only at h
                                              by_cases cz : y1 ≠ 0
                                              · rw [if_pos cz] at h
                                                have hv := Except.ok.inj h
                                                exact DispResult.noConfusion hv
                                              · rw [if_neg cz] at h
                                                have hv := Except.ok.inj h
                                                injection hv with hv1 hv2
                                                subst hv1
                                                exact hmap
                                            · rw [if_neg c21] at h
                                              by_cases c22 : hb = 0xc4
                                              · rw [if_pos c22] at h
                                                obtain ⟨⟨y1, y2⟩, hx, h⟩ := exBind_eq_ok h
                                                dsimp only at h
                                                obtain ⟨⟨y1, y2⟩, hx, h⟩ := exBind_eq_ok h
                                                dsimp only at h
                                                have hv := Except.ok.inj h
                                                injection hv with hv1 hv2
                                                subst hv1
                                                exact hbin _
                                              · rw [if_neg c22] at h
                                                by_cases c23 : hb = 0xc5
                                                · rw [if_pos c23] at h
                                                  obtain ⟨⟨y1, y2⟩, hx, h⟩ := exBind_eq_ok h
                                                  dsimp only at h
                                                  obtain ⟨⟨y1, y2⟩, hx, h⟩ := exBind_eq_ok h
                                                  dsimp only at h
                                                  have hv := Except.ok.inj h
                                                  injection hv with hv1 hv2
                                                  subst hv1
                                                  exact hbin _
                                                · rw [if_neg c23] at h
                                                  by_cases c24 : hb = 0xc6
                                                  · rw [if_pos c24] at h
                                                    obtain ⟨⟨y1, y2⟩, hx, h⟩ := exBind_eq_ok h
                                                    dsimp only at h
                                                    obtain ⟨⟨y1, y2⟩, hx, h⟩ := exBind_eq_ok h
                                                    dsimp only at h
                                                    have hv := Except.ok.inj h
                                                    injection hv with hv1 hv2
                                                    subst hv1
                                                    exact hbin _
                                                  · rw [if_neg c24] at h
                                                    by_cases c25 : hb = 0xd4
                                                    · rw [if_pos c25] at h
                                                      obtain ⟨⟨y1, y2⟩, hx, h⟩ := exBind_eq_ok h
                                                      dsimp only at h
                                                      have hv := Except.ok.inj h
                                                      injection hv with hv1 hv2
                                                      subst hv1
                                                      obtain ⟨t, d, hed⟩ := decodeExtension_ok _ _ _ _ _ _ hx
                                                      exact hext _ _ _ hed
                                                    · rw [if_neg c25] at h
                                                      by_cases c26 : hb = 0xd5
                                                      · rw [if_pos c26] at h
                                                        obtain ⟨⟨y1, y2⟩, hx, h⟩ := exBind_eq_ok h
                                                        dsimp only at h
                                                        have hv := Except.ok.inj h
                                                        injection hv with hv1 hv2
                                                        subst hv1
                                                        obtain ⟨t, d, hed⟩ := decodeExtension_ok _ _ _ _ _ _ hx
                                                        exact hext _ _ _ hed
                                                      · rw [if_neg c26] at h
                                                        by_cases c27 : hb = 0xd6
                                                        · rw [if_pos c27] at h
                                                          obtain ⟨⟨y1, y2⟩, hx, h⟩ := exBind_eq_ok h
                                                          dsimp only at h
                                                          have hv := Except.ok.inj h
                                                          injection hv with hv1 hv2
                                                          subst hv1
                                                          obtain ⟨t, d, hed⟩ := decodeExtension_ok _ _ _ _ _ _ hx
                                                          exact hext _ _ _ hed
                                                        · rw [if_neg c27] at h
                                                          by_cases c28 : hb = 0xd7
                                                          · rw [if_pos c28] at h
                                                            obtain ⟨⟨y1, y2⟩, hx, h⟩ := exBind_eq_ok h
                                                            dsimp only at h
                                                            have hv := Except.ok.inj h
                                                            injection hv with hv1 hv2
                                                            subst hv1
                                                            obtain ⟨t, d, hed⟩ := decodeExtension_ok _ _ _ _ _ _ hx
                                                            exact hext _ _ _ hed
                                                          · rw [if_neg c28] at h
                                                            by_cases c29 : hb = 0xd8
                                                            · rw [if_pos c29] at h
                                                              obtain ⟨⟨y1, y2⟩, hx, h⟩ := exBind_eq_ok h
                                                              dsimp only at h
                                                              have hv := Except.ok.inj h
                                                              injection hv with hv1 hv2
                                                              subst hv1
                                                              obtain ⟨t, d, hed⟩ := decodeExtension_ok _ _ _ _ _ _ hx
                                                              exact hext _ _ _ hed
                                                            · rw [if_neg c29] at h
                                                              by_cases c30 : hb = 0xc7
                                                              · rw [if_pos c30] at h
                                                                obtain ⟨⟨y1, y2⟩, hx, h⟩ := exBind_eq_ok h
                                                                dsimp only at h
                                                                obtain ⟨⟨y1, y2⟩, hx, h⟩ := exBind_eq_ok h
                                                                dsimp only at h
                                                                have hv := Except.ok.inj h
                                                                injection hv with hv1 hv2
                                                                subst hv1
                                                                obtain ⟨t, d, hed⟩ := decodeExtension_ok _ _ _ _ _ _ hx
                                                                exact hext _ _ _ hed
                                                              · rw [if_neg c30] at h
                                                                by_cases c31 : hb = 0xc8
                                                                · rw [if_pos c31] at h
                                                                  obtain ⟨⟨y1, y2⟩, hx, h⟩ := exBind_eq_ok h
                                                                  dsimp only at h
                                                                  obtain ⟨⟨y1, y2⟩, hx, h⟩ := exBind_eq_ok h
                                                                  dsimp only at h
                                                                  have hv := Except.ok.inj h
                                                                  injection hv with hv1 hv2
                                                                  subst hv1
                                                                  obtain ⟨t, d, hed⟩ := decodeExtension_ok _ _ _ _ _ _ hx
                                                                  exact hext _ _ _ hed
                                                                · rw [if_neg c31] at h
                                                                  by_cases c32 : hb = 0xc9
                                                                  · rw [if_pos c32] at h
                                                                    obtain ⟨⟨y1, y2⟩, hx, h⟩ := exBind_eq_ok h
                                                                    dsimp only at h
                                                                    obtain ⟨⟨y1, y2⟩, hx, h⟩ := exBind_eq_ok h
                                                                    dsimp only at h
                                                                    have hv := Except.ok.inj h
                                                                    injection hv with hv1 hv2
                                                                    subst hv1
                                                                    obtain ⟨t, d, hed⟩ := decodeExtension_ok _ _ _ _ _ _ hx
                                                                    exact hext _ _ _ hed
                                                                  · rw [if_neg c32] at h
                                                                    exact Except.noConfusion h

theorem toMapKey_not_proto (obj : Value) (hvalid : isValidMapKeyType obj = true)
    (hp : isProtoKey obj = false) :
    (toMapKey obj == MKey.str protoBytes) = false := by
  cases obj with
  | str s =>
    rw [isProtoKey] at hp
    rw [toMapKey]
    rw [beq_eq_false_iff_ne] at hp ⊢
    intro hc
    exact hp (MKey.str.inj hc)
  | num x => rfl
  | nil => cases hvalid
  | bool b => cases hvalid
  | bin b => cases hvalid
  | arr es => cases hvalid
  | map kvs => cases hvalid
  | ext t d => cases hvalid

theorem emitToStack_noProto (st : List StackState) :
    ∀ (obj : Value) (r : Value ⊕ List StackState),
      vNoProto obj = true → stackNoProto st = true →
      emitToStack obj st = .ok r →
      (∀ v, r = .inl v → vNoProto v = true) ∧
      (∀ st', r = .inr st' → stackNoProto st' = true) := by
  induction st with
  | nil =>
    intro obj r ho _ h
    rw [emitToStack] at h
    have hr := Except.ok.inj h
    subst hr
    refine ⟨fun v hv => ?_, fun st' hst => by cases hst⟩
    injection hv with hv1
    subst hv1
    exact ho
  | cons f rest ih =>
    intro obj r ho hs h
    rw [stackNoProto, Bool.and_eq_true] at hs
    cases f with
    | arrayS size array position =>
      rw [frameNoProto] at hs
      have harr : listNoProto (array ++ [obj]) = true := by
        rw [listNoProto_append]
        simp [hs.1, listNoProto, ho]
      rw [emitToStack] at h
      split at h
      · exact ih (.arr (array ++ [obj])) r (by rw [vNoProto]; exact harr) hs.2 h
      · have hr := Except.ok.inj h
        subst hr
        refine ⟨fun v hv => (by cases hv), fun st' hst => ?_⟩
        injection hst with hst1
        subst hst1
        rw [stackNoProto, frameNoProto]
        simp [harr, hs.2]
    | mapKeyS size readCount m =>
      rw [frameNoProto] at hs
      rw [emitToStack] at h
      by_cases h1 : !isValidMapKeyType obj
      · rw [if_pos h1] at h
        exact Except.noConfusion h
      · rw [if_neg h1] at h
        by_cases h2 : isProtoKey obj
        · simp only [h2, if_true] at h
          exact Except.noConfusion h
        · simp only [h2, if_false, Bool.false_eq_true] at h
          have hr := Except.ok.inj h
          subst hr
          refine ⟨fun v hv => (by cases hv), fun st' hst => ?_⟩
          injection hst with hst1
          subst hst1
          rw [stackNoProto, frameNoProto]
          have hkey := toMapKey_not_proto obj (by simpa using h1)
            (by simpa using h2)
          simp [hkey, hs.1, hs.2]
    | mapValueS size key readCount m =>
      rw [frameNoProto, Bool.and_eq_true] at hs
      have hmp : entriesNoProto (recordSet m key obj) = true :=
        recordSet_noProto m key obj hs.1.2 (by simpa using hs.1.1) ho
      rw [emitToStack] at h
      split at h
      · exact ih (.map (recordSet m key obj)) r (by rw [vNoProto]; exact hmp) hs.2 h
      · have hr := Except.ok.inj h
        subst hr
        refine ⟨fun v hv => (by cases hv), fun st' hst => ?_⟩
        injection hst with hst1
        subst hst1
        rw [stackNoProto, frameNoProto]
        simp [hmp, hs.2]

theorem doDecodeSync_noProto {σ : Type} (cfg : Config) (S : SrcOps σ)
    (hcfg : ∀ t d v, cfg.extDecode t d = .ok v → vNoProto v = true) :
    ∀ (fuel : Nat) (s : σ) (stack : List StackState) (v : Value) (s' : σ),
      stackNoProto stack = true →
      doDecodeSync cfg S fuel s stack = .ok (v, s') → vNoProto v = true := by
  intro fuel
  induction fuel with
  | zero =>
    intro s stack v s' _ h
    rw [doDecodeSync] at h
    exact Except.noConfusion h
  | succ fuel ih =>
    intro s stack v s' hst h
    rw [doDecodeSync] at h
    obtain ⟨r, hr, h⟩ := exBind_eq_ok h
    cases r with
    | obj object s1 =>
      dsimp only at h
      have hobj : vNoProto object = true :=
        stepDispatch_obj_pred vNoProto cfg S s rfl (fun _ => rfl) (fun _ => rfl)
          (fun _ => rfl) (fun _ => rfl) rfl rfl hcfg object s1 hr
      cases he : emitToStack object stack with
      | error m =>
        rw [he] at h
        exact Except.noConfusion h
      | ok r2 =>
        rw [he] at h
        have hem := emitToStack_noProto stack object r2 hobj hst he
        cases r2 with
        | inl w =>
          dsimp only at h
          have hv := Except.ok.inj h
          injection hv with hv1 hv2
          subst hv1
          exact hem.1 w rfl
        | inr stack2 =>
          dsimp only at h
          exact ih s1 stack2 v s' (hem.2 stack2 rfl) h
    | pushArr size s1 =>
      dsimp only at h
      cases hp : pushArrayState cfg size stack with
      | error m =>
        rw [hp] at h
        exact Except.noConfusion h
      | ok stack2 =>
        rw [hp] at h
        have hst2 : stackNoProto stack2 = true := by
          unfold pushArrayState at hp
          split at hp
          · exact Except.noConfusion hp
          · have := Except.ok.inj hp
            subst this
            rw [stackNoProto, frameNoProto]
            rw [Bool.and_eq_true]
            exact ⟨by rw [listNoProto], hst⟩
        exact ih s1 stack2 v s' hst2 h
    | pushMap size s1 =>
      dsimp only at h
      cases hp : pushMapState cfg size stack with
      | error m =>
        rw [hp] at h
        exact Except.noConfusion h
      | ok stack2 =>
        rw [hp] at h
        have hst2 : stackNoProto stack2 = true := by
          unfold pushMapState at hp
          split at hp
          · exact Except.noConfusion hp
          · have := Except.ok.inj hp
            subst this
            rw [stackNoProto, frameNoProto]
            rw [Bool.and_eq_true]
            exact ⟨by rw [entriesNoProto], hst⟩
        exact ih s1 stack2 v s' hst2 h

/-- C4: no decode ever completes successfully with a map containing the
key `"__proto__"` anywhere in its result (for any configuration whose
extension codec itself never fabricates such a map, the default codec
included), and a completed `"__proto__"` map key aborts the decode with
the dedicated decode error. -/
theorem decode_rejects_proto_keys :
    (∀ (cfg : Config),
      (∀ t d v, cfg.extDecode t d = .ok v → vNoProto v = true) →
      ∀ (input : List Byte) (v : Value) (rest : List Byte),
        decodeFlat cfg input = .ok (v, rest) → vNoProto v = true) ∧
    (∀ (obj : Value) (size readCount : Nat) (m : List (MKey × Value))
      (rest : List StackState), isProtoKey obj = true →
      emitToStack obj (.mapKeyS size readCount m :: rest) =
        .error "The key __proto__ is not allowed") := by
  constructor
  · intro cfg hcfg input v rest h
    exact doDecodeSync_noProto cfg flatSrc hcfg (input.length + 1) input [] v rest
      rfl h
  · intro obj size readCount m rest hp
    have hvalid : isValidMapKeyType obj = true := by
      cases obj <;> first | rfl | cases hp
    rw [emitToStack, hvalid]
    simp only [Bool.not_true, Bool.false_eq_true, if_false, hp, if_true]

/-- Witness for C4: decoding `{"a": 1}` succeeds with no proto key in the
result; a completed `"__proto__"` string key aborts the decode. -/
theorem decode_rejects_proto_keys_witness :
    vNoProto (.map [(.str [0x61], .num (.int 1))]) = true ∧
    emitToStack (.str protoBytes) [.mapKeyS 1 0 []] =
      .error "The key __proto__ is not allowed" :=
  ⟨decode_rejects_proto_keys.1 defaultCfg
      (fun _ _ _ h => Except.noConfusion h)
      [0x81, 0xa1, 0x61, 0x01] (.map [(.str [0x61], .num (.int 1))]) [] rfl,
   decode_rejects_proto_keys.2 (.str protoBytes) 1 0 [] [] rfl⟩

theorem doDecodeSync_obj (cfg : Config) (fuel : Nat) (s : List Byte)
    (stack : List StackState) (v : Value) (s' : List Byte)
    (h : stepDispatch cfg flatSrc s = .ok (.obj v s')) :
    doDecodeSync cfg flatSrc (fuel + 1) s stack =
      contEmit cfg fuel (emitToStack v stack) s' := by
  rw [doDecodeSync]
  rw [h, exOkBind]
  rfl

theorem doDecodeSync_push_arr (cfg : Config) (fuel : Nat) (s : List Byte)
    (stack : List StackState) (size : Nat) (s' : List Byte)
    (h : stepDispatch cfg flatSrc s = .ok (.pushArr size s')) :
    doDecodeSync cfg flatSrc (fuel + 1) s stack =
      match pushArrayState cfg size stack with
      | .error m => .error (.decodeError m)
      | .ok stack' => doDecodeSync cfg flatSrc fuel s' stack' := by
  rw [doDecodeSync]
  rw [h, exOkBind]

theorem doDecodeSync_push_map (cfg : Config) (fuel : Nat) (s : List Byte)
    (stack : List StackState) (size : Nat) (s' : List Byte)
    (h : stepDispatch cfg flatSrc s = .ok (.pushMap size s')) :
    doDecodeSync cfg flatSrc (fuel + 1) s stack =
      match pushMapState cfg size stack with
      | .error m => .error (.decodeError m)
      | .ok stack' => doDecodeSync cfg flatSrc fuel s' stack' := by
  rw [doDecodeSync]
  rw [h, exOkBind]

theorem readN_flat (k u : Nat) (rest : List Byte) :
    flatReadBytes k (beBytes k u ++ rest) = .ok (beBytes k u, rest) := by
  have h := flatReadBytes_exact (beBytes k u) rest
  rw [beBytes_length] at h
  exact h

theorem readU8_be (u : Nat) (hu : u < 256) (rest : List Byte) :
    readU8 flatSrc (beBytes 1 u ++ rest) = .ok (u, rest) := by
  unfold readU8
  rw [show flatSrc.readBytes = flatReadBytes from rfl, readN_flat, exOkBind]
  dsimp only
  rw [beNat_beBytes_of_lt (by simpa using hu)]
  rfl

theorem readU16_be (u : Nat) (hu : u < 256 ^ 2) (rest : List Byte) :
    readU16 flatSrc (beBytes 2 u ++ rest) = .ok (u, rest) := by
  unfold readU16
  rw [show flatSrc.readBytes = flatReadBytes from rfl, readN_flat, exOkBind]
  dsimp only
  rw [beNat_beBytes_of_lt hu]
  rfl

theorem readU32_be (u : Nat) (hu : u < 256 ^ 4) (rest : List Byte) :
    readU32 flatSrc (beBytes 4 u ++ rest) = .ok (u, rest) := by
  unfold readU32
  rw [show flatSrc.readBytes = flatReadBytes from rfl, readN_flat, exOkBind]
  dsimp only
  rw [beNat_beBytes_of_lt hu]
  rfl

theorem readU64_be (u : Nat) (hu : u < 256 ^ 8) (rest : List Byte) :
    readU64 flatSrc (beBytes 8 u ++ rest) = .ok (u, rest) := by
  unfold readU64
  rw [show flatSrc.readBytes = flatReadBytes from rfl, readN_flat, exOkBind]
  dsimp only
  rw [beNat_beBytes_of_lt hu]
  rfl

theorem readF32_be (u : Nat) (hu : u < 256 ^ 4) (rest : List Byte) :
    readF32 flatSrc (beBytes 4 u ++ rest) = .ok (.f32 u, rest) := by
  unfold readF32
  rw [show flatSrc.readBytes = flatReadBytes from rfl, readN_flat, exOkBind]
  dsimp only
  rw [beNat_beBytes_of_lt hu]
  rfl

theorem readF64_be (u : Nat) (hu : u < 256 ^ 8) (rest : List Byte) :
    readF64 flatSrc (beBytes 8 u ++ rest) = .ok (.f64 u, rest) := by
  unfold readF64
  rw [show flatSrc.readBytes = flatReadBytes from rfl, readN_flat, exOkBind]
  dsimp only
  rw [beNat_beBytes_of_lt hu]
  rfl

theorem intBytes_length (k : Nat) (n : Int) : (intBytes k n).length = k := by
  rw [intBytes, beBytes_length]

theorem readI_be (k : Nat) (hk : 0 < k) (n : Int)
    (h1 : -(2 ^ (8 * k - 1)) ≤ n) (h2 : n < 2 ^ (8 * k - 1)) (rest : List Byte) :
    flatReadBytes k (intBytes k n ++ rest) = .ok (intBytes k n, rest) ∧
    sInterp k (beNat (intBytes k n)) = n := by
  constructor
  · have h := flatReadBytes_exact (intBytes k n) rest
    rw [intBytes_length] at h
    exact h
  · exact sInterp_intBytes hk h1 h2

theorem readI8_be (n : Int) (h1 : -(2 ^ 7) ≤ n) (h2 : n < 2 ^ 7)
    (rest : List Byte) :
    readI8 flatSrc (intBytes 1 n ++ rest) = .ok (n, rest) := by
  unfold readI8
  have h := readI_be 1 (by omega) n h1 h2 rest
  rw [show flatSrc.readBytes = flatReadBytes from rfl, h.1, exOkBind]
  dsimp only
  rw [h.2]
  rfl

theorem readI16_be (n : Int) (h1 : -(2 ^ 15) ≤ n) (h2 : n < 2 ^ 15)
    (rest : List Byte) :
    readI16 flatSrc (intBytes 2 n ++ rest) = .ok (n, rest) := by
  unfold readI16
  have h := readI_be 2 (by omega) n h1 h2 rest
  rw [show flatSrc.readBytes = flatReadBytes from rfl, h.1, exOkBind]
  dsimp only
  rw [h.2]
  rfl

theorem readI32_be (n : Int) (h1 : -(2 ^ 31) ≤ n) (h2 : n < 2 ^ 31)
    (rest : List Byte) :
    readI32 flatSrc (intBytes 4 n ++ rest) = .ok (n, rest) := by
  unfold readI32
  have h := readI_be 4 (by omega) n h1 h2 rest
  rw [show flatSrc.readBytes = flatReadBytes from rfl, h.1, exOkBind]
  dsimp only
  rw [h.2]
  rfl

theorem readI64_be (n : Int) (h1 : -(2 ^ 63) ≤ n) (h2 : n < 2 ^ 63)
    (rest : List Byte) :
    readI64 flatSrc (intBytes 8 n ++ rest) = .ok (n, rest) := by
  unfold readI64
  have h := readI_be 8 (by omega) n h1 h2 rest
  rw [show flatSrc.readBytes = flatReadBytes from rfl, h.1, exOkBind]
  dsimp only
  rw [h.2]
  rfl

theorem stepDispatch_posfixint (cfg : Config) (b : Nat) (hb : b < 0x80)
    (rest : List Byte) :
    stepDispatch cfg flatSrc (b :: rest) = .ok (.obj (.num (.int b)) rest) := by
  unfold stepDispatch
  rw [readU8_flat, exOkBind]
  dsimp only
  rw [if_neg (show ¬ 0xe0 ≤ b from by omega),
    if_pos (show b < 0xc0 from by omega), if_pos hb]
  rfl

theorem stepDispatch_negfixint (cfg : Config) (b : Nat) (hb : 0xe0 ≤ b)
    (rest : List Byte) :
    stepDispatch cfg flatSrc (b :: rest) =
      .ok (.obj (.num (.int ((b : Int) - 0x100))) rest) := by
  unfold stepDispatch
  rw [readU8_flat, exOkBind]
  dsimp only
  rw [if_pos hb]
  rfl

theorem stepDispatch_nil (cfg : Config) (rest : List Byte) :
    stepDispatch cfg flatSrc (0xc0 :: rest) = .ok (.obj .nil rest) := by
  unfold stepDispatch
  rw [readU8_flat, exOkBind]
  norm_num
  rfl

theorem stepDispatch_false (cfg : Config) (rest : List Byte) :
    stepDispatch cfg flatSrc (0xc2 :: rest) = .ok (.obj (.bool false) rest) := by
  unfold stepDispatch
  rw [readU8_flat, exOkBind]
  norm_num
  rfl

theorem stepDispatch_true (cfg : Config) (rest : List Byte) :
    stepDispatch cfg flatSrc (0xc3 :: rest) = .ok (.obj (.bool true) rest) := by
  unfold stepDispatch
  rw [readU8_flat, exOkBind]
  norm_num
  rfl

theorem stepDispatch_u8 (cfg : Config) (u : Nat) (hu : u < 256)
    (rest : List Byte) :
    stepDispatch cfg flatSrc (0xcc :: (beBytes 1 u ++ rest)) =
      .ok (.obj (.num (.int u)) rest) := by
  unfold stepDispatch
  rw [readU8_flat, exOkBind]
  norm_num
  rw [readU8_be u hu rest]
  rfl

theorem stepDispatch_u16 (cfg : Config) (u : Nat) (hu : u < 256 ^ 2)
    (rest : List Byte) :
    stepDispatch cfg flatSrc (0xcd :: (beBytes 2 u ++ rest)) =
      .ok (.obj (.num (.int u)) rest) := by
  unfold stepDispatch
  rw [readU8_flat, exOkBind]
  norm_num
  rw [readU16_be u hu rest]
  rfl

theorem stepDispatch_u32 (cfg : Config) (u : Nat) (hu : u < 256 ^ 4)
    (rest : List Byte) :
    stepDispatch cfg flatSrc (0xce :: (beBytes 4 u ++ rest)) =
      .ok (.obj (.num (.int u)) rest) := by
  unfold stepDispatch
  rw [readU8_flat, exOkBind]
  norm_num
  rw [readU32_be u hu rest]
  rfl

theorem stepDispatch_u64 (cfg : Config) (u : Nat) (hu : u < 256 ^ 8)
    (rest : List Byte) :
    stepDispatch cfg flatSrc (0xcf :: (beBytes 8 u ++ rest)) =
      .ok (.obj (.num (.int u)) rest) := by
  unfold stepDispatch
  rw [readU8_flat, exOkBind]
  norm_num
  rw [readU64_be u hu rest]
  rfl

theorem stepDispatch_i8 (cfg : Config) (n : Int) (h1 : -(2 ^ 7) ≤ n)
    (h2 : n < 2 ^ 7) (rest : List Byte) :
    stepDispatch cfg flatSrc (0xd0 :: (intBytes 1 n ++ rest)) =
      .ok (.obj (.num (.int n)) rest) := by
  unfold stepDispatch
  rw [readU8_flat, exOkBind]
  norm_num
  rw [readI8_be n h1 h2 rest]
  rfl

theorem stepDispatch_i16 (cfg : Config) (n : Int) (h1 : -(2 ^ 15) ≤ n)
    (h2 : n < 2 ^ 15) (rest : List Byte) :
    stepDispatch cfg flatSrc (0xd1 :: (intBytes 2 n ++ rest)) =
      .ok (.obj (.num (.int n)) rest) := by
  unfold stepDispatch
  rw [readU8_flat, exOkBind]
  norm_num
  rw [readI16_be n h1 h2 rest]
  rfl

theorem stepDispatch_i32 (cfg : Config) (n : Int) (h1 : -(2 ^ 31) ≤ n)
    (h2 : n < 2 ^ 31) (rest : List Byte) :
    stepDispatch cfg flatSrc (0xd2 :: (intBytes 4 n ++ rest)) =
      .ok (.obj (.num (.int n)) rest) := by
  unfold stepDispatch
  rw [readU8_flat, exOkBind]
  norm_num
  rw [readI32_be n h1 h2 rest]
  rfl

theorem stepDispatch_i64 (cfg : Config) (n : Int) (h1 : -(2 ^ 63) ≤ n)
    (h2 : n < 2 ^ 63) (rest : List Byte) :
    stepDispatch cfg flatSrc (0xd3 :: (intBytes 8 n ++ rest)) =
      .ok (.obj (.num (.int n)) rest) := by
  unfold stepDispatch
  rw [readU8_flat, exOkBind]
  norm_num
  rw [readI64_be n h1 h2 rest]
  rfl

theorem stepDispatch_f64 (cfg : Config) (u : Nat) (hu : u < 256 ^ 8)
    (rest : List Byte) :
    stepDispatch cfg flatSrc (0xcb :: (beBytes 8 u ++ rest)) =
      .ok (.obj (.num (.f64 u)) rest) := by
  unfold stepDispatch
  rw [readU8_flat, exOkBind]
  norm_num
  rw [readF64_be u hu rest]
  rfl

theorem stepDispatch_fixstr (cfg : Config) (len : Nat) (hl : len < 32)
    (str : List Byte) (hs : str.length = len) (hmax : ¬ len > cfg.maxStrLength)
    (rest : List Byte) :
    stepDispatch cfg flatSrc ((0xa0 + len) :: (str ++ rest)) =
      .ok (.obj (.str str) rest) := by
  unfold stepDispatch
  rw [readU8_flat, exOkBind]
  dsimp only
  rw [if_neg (show ¬ 0xe0 ≤ 0xa0 + len from by omega),
    if_pos (show 0xa0 + len < 0xc0 from by omega),
    if_neg (show ¬ 0xa0 + len < 0x80 from by omega),
    if_neg (show ¬ 0xa0 + len < 0x90 from by omega),
    if_neg (show ¬ 0xa0 + len < 0xa0 from by omega)]
  rw [Nat.add_sub_cancel_left]
  rw [decodeUtf8String, if_neg hmax]
  rw [show flatSrc.readBytes = flatReadBytes from rfl]
  rw [← hs, flatReadBytes_exact]
  rfl

theorem stepDispatch_str8 (cfg : Config) (len : Nat) (hl : len < 256)
    (str : List Byte) (hs : str.length = len) (hmax : ¬ len > cfg.maxStrLength)
    (rest : List Byte) :
    stepDispatch cfg flatSrc (0xd9 :: (beBytes 1 len ++ (str ++ rest))) =
      .ok (.obj (.str str) rest) := by
  unfold stepDispatch
  rw [readU8_flat, exOkBind]
  norm_num
  rw [readU8_be len hl, exOkBind]
  dsimp only
  rw [decodeUtf8String, if_neg hmax]
  rw [show flatSrc.readBytes = flatReadBytes from rfl]
  rw [← hs, flatReadBytes_exact]
  rfl

theorem stepDispatch_str16 (cfg : Config) (len : Nat) (hl : len < 256 ^ 2)
    (str : List Byte) (hs : str.length = len) (hmax : ¬ len > cfg.maxStrLength)
    (rest : List Byte) :
    stepDispatch cfg flatSrc (0xda :: (beBytes 2 len ++ (str ++ rest))) =
      .ok (.obj (.str str) rest) := by
  unfold stepDispatch
  rw [readU8_flat, exOkBind]
  norm_num
  rw [readU16_be len hl, exOkBind]
  dsimp only
  rw [decodeUtf8String, if_neg hmax]
  rw [show flatSrc.readBytes = flatReadBytes from rfl]
  rw [← hs, flatReadBytes_exact]
  rfl

theorem stepDispatch_str32 (cfg : Config) (len : Nat) (hl : len < 256 ^ 4)
    (str : List Byte) (hs : str.length = len) (hmax : ¬ len > cfg.maxStrLength)
    (rest : List Byte) :
    stepDispatch cfg flatSrc (0xdb :: (beBytes 4 len ++ (str ++ rest))) =
      .ok (.obj (.str str) rest) := by
  unfold stepDispatch
  rw [readU8_flat, exOkBind]
  norm_num
  rw [readU32_be len hl, exOkBind]
  dsimp only
  rw [decodeUtf8String, if_neg hmax]
  rw [show flatSrc.readBytes = flatReadBytes from rfl]
  rw [← hs, flatReadBytes_exact]
  rfl

theorem stepDispatch_bin8 (cfg : Config) (len : Nat) (hl : len < 256)
    (b : List Byte) (hs : b.length = len) (hmax : ¬ len > cfg.maxBinLength)
    (rest : List Byte) :
    stepDispatch cfg flatSrc (0xc4 :: (beBytes 1 len ++ (b ++ rest))) =
      .ok (.obj (.bin b) rest) := by
  unfold stepDispatch
  rw [readU8_flat, exOkBind]
  norm_num
  rw [readU8_be len hl, exOkBind]
  dsimp only
  rw [decodeBinary, if_neg hmax]
  rw [show flatSrc.readBytes = flatReadBytes from rfl]
  rw [← hs, flatReadBytes_exact]
  rfl

theorem stepDispatch_bin16 (cfg : Config) (len : Nat) (hl : len < 256 ^ 2)
    (b : List Byte) (hs : b.length = len) (hmax : ¬ len > cfg.maxBinLength)
    (rest : List Byte) :
    stepDispatch cfg flatSrc (0xc5 :: (beBytes 2 len ++ (b ++ rest))) =
      .ok (.obj (.bin b) rest) := by
  unfold stepDispatch
  rw [readU8_flat, exOkBind]
  norm_num
  rw [readU16_be len hl, exOkBind]
  dsimp only
  rw [decodeBinary, if_neg hmax]
  rw [show flatSrc.readBytes = flatReadBytes from rfl]
  rw [← hs, flatReadBytes_exact]
  rfl

theorem stepDispatch_bin32 (cfg : Config) (len : Nat) (hl : len < 256 ^ 4)
    (b : List Byte) (hs : b.length = len) (hmax : ¬ len > cfg.maxBinLength)
    (rest : List Byte) :
    stepDispatch cfg flatSrc (0xc6 :: (beBytes 4 len ++ (b ++ rest))) =
      .ok (.obj (.bin b) rest) := by
  unfold stepDispatch
  rw [readU8_flat, exOkBind]
  norm_num
  rw [readU32_be len hl, exOkBind]
  dsimp only
  rw [decodeBinary, if_neg hmax]
  rw [show flatSrc.readBytes = flatReadBytes from rfl]
  rw [← hs, flatReadBytes_exact]
  rfl

theorem stepDispatch_fixarray_push (cfg : Config) (size : Nat) (h1 : 0 < size)
    (h2 : size < 16) (rest : List Byte) :
    stepDispatch cfg flatSrc ((0x90 + size) :: rest) = .ok (.pushArr size rest) := by
  unfold stepDispatch
  rw [readU8_flat, exOkBind]
  dsimp only
  rw [if_neg (show ¬ 0xe0 ≤ 0x90 + size from by omega),
    if_pos (show 0x90 + size < 0xc0 from by omega),
    if_neg (show ¬ 0x90 + size < 0x80 from by omega),
    if_neg (show ¬ 0x90 + size < 0x90 from by omega),
    if_pos (show 0x90 + size < 0xa0 from by omega)]
  rw [Nat.add_sub_cancel_left]
  rw [if_pos (show size ≠ 0 from by omega)]
  rfl

theorem stepDispatch_fixarray_zero (cfg : Config) (rest : List Byte) :
    stepDispatch cfg flatSrc (0x90 :: rest) = .ok (.obj (.arr []) rest) := by
  unfold stepDispatch
  rw [readU8_flat, exOkBind]
  norm_num
  rfl

theorem stepDispatch_fixmap_push (cfg : Config) (size : Nat) (h1 : 0 < size)
    (h2 : size < 16) (rest : List Byte) :
    stepDispatch cfg flatSrc ((0x80 + size) :: rest) = .ok (.pushMap size rest) := by
  unfold stepDispatch
  rw [readU8_flat, exOkBind]
  dsimp only
  rw [if_neg (show ¬ 0xe0 ≤ 0x80 + size from by omega),
    if_pos (show 0x80 + size < 0xc0 from by omega),
    if_neg (show ¬ 0x80 + size < 0x80 from by omega),
    if_pos (show 0x80 + size < 0x90 from by omega)]
  rw [Nat.add_sub_cancel_left]
  rw [if_pos (show size ≠ 0 from by omega)]
  rfl

theorem stepDispatch_fixmap_zero (cfg : Config) (rest : List Byte) :
    stepDispatch cfg flatSrc (0x80 :: rest) = .ok (.obj (.map []) rest) := by
  unfold stepDispatch
  rw [readU8_flat, exOkBind]
  norm_num
  rfl

theorem stepDispatch_array16 (cfg : Config) (size : Nat) (h1 : 0 < size)
    (h2 : size < 256 ^ 2) (rest : List Byte) :
    stepDispatch cfg flatSrc (0xdc :: (beBytes 2 size ++ rest)) =
      .ok (.pushArr size rest) := by
  unfold stepDispatch
  rw [readU8_flat, exOkBind]
  norm_num
  rw [readU16_be size h2, exOkBind]
  dsimp only
  rw [if_neg (show ¬ size = 0 from by omega)]
  rfl

theorem stepDispatch_array32 (cfg : Config) (size : Nat) (h1 : 0 < size)
    (h2 : size < 256 ^ 4) (rest : List Byte) :
    stepDispatch cfg flatSrc (0xdd :: (beBytes 4 size ++ rest)) =
      .ok (.pushArr size rest) := by
  unfold stepDispatch
  rw [readU8_flat, exOkBind]
  norm_num
  rw [readU32_be size h2, exOkBind]
  dsimp only
  rw [if_neg (show ¬ size = 0 from by omega)]
  rfl

theorem stepDispatch_map16 (cfg : Config) (size : Nat) (h1 : 0 < size)
    (h2 : size < 256 ^ 2) (rest : List Byte) :
    stepDispatch cfg flatSrc (0xde :: (beBytes 2 size ++ rest)) =
      .ok (.pushMap size rest) := by
  unfold stepDispatch
  rw [readU8_flat, exOkBind]
  norm_num
  rw [readU16_be size h2, exOkBind]
  dsimp only
  rw [if_neg (show ¬ size = 0 from by omega)]
  rfl

theorem stepDispatch_map32 (cfg : Config) (size : Nat) (h1 : 0 < size)
    (h2 : size < 256 ^ 4) (rest : List Byte) :
    stepDispatch cfg flatSrc (0xdf :: (beBytes 4 size ++ rest)) =
      .ok (.pushMap size rest) := by
  unfold stepDispatch
  rw [readU8_flat, exOkBind]
  norm_num
  rw [readU32_be size h2, exOkBind]
  dsimp only
  rw [if_neg (show ¬ size = 0 from by omega)]
  rfl

theorem recordSet_fresh (m : List (MKey × Value)) (k : MKey) (v : Value)
    (h : ∀ e ∈ m, (e.1 == k) = false) :
    recordSet m k v = m ++ [(k, v)] := by
  induction m with
  | nil => rfl
  | cons e rest ih =>
    obtain ⟨k', v'⟩ := e
    rw [recordSet]
    rw [if_neg (by
      have := h (k', v') (by simp)
      rw [beq_eq_false_iff_ne] at this
      exact this)]
    rw [List.cons_append]
    congr 1
    exact ih (fun e he => h e (by simp [he]))

theorem encodeValue_of_key (s : List Byte) :
    encodeValue 100 0 (.str s) = encodeMKey (.str s) := by
  rw [encodeValue, encodeMKey]
  rw [if_neg (by omega)]

theorem roundtrip_elems (N : Nat)
    (ihv : ∀ v : Value, sizeOf v ≤ N → wfValue v = true → ∀ depth bs,
      encodeValue 100 depth v = .ok bs →
      ∀ fuel rest stack, doDecodeSync defaultCfg flatSrc (nodesValue v + fuel)
        (bs ++ rest) stack = contEmit defaultCfg fuel (emitToStack v stack) rest) :
    ∀ es : List Value, sizeOf es ≤ N → wfElems es = true →
      ∀ depth bs, encodeElems 100 depth es = .ok bs →
      ∀ (size : Nat) (acc : List Value) (pos : Nat),
        pos + es.length = size → es ≠ [] →
        ∀ fuel rest stack0,
          doDecodeSync defaultCfg flatSrc (nodesElems es + fuel) (bs ++ rest)
            (.arrayS size acc pos :: stack0) =
          contEmit defaultCfg fuel (emitToStack (.arr (acc ++ es)) stack0) rest := by
  intro es
  induction es with
  | nil => intro _ _ _ _ _ _ _ _ _ hne; exact absurd rfl hne
  | cons e es ih =>
    intro hsize hwf depth bs henc size acc pos hpos _ fuel rest stack0
    rw [wfElems, Bool.and_eq_true] at hwf
    rw [encodeElems] at henc
    obtain ⟨bs1, h1, henc⟩ := exBind_eq_ok henc
    obtain ⟨bs2, h2, henc⟩ := exBind_eq_ok henc
    have hbs := Except.ok.inj henc
    subst hbs
    have hse : sizeOf e ≤ N := by
      simp only [List.cons.sizeOf_spec] at hsize
      omega
    rw [show nodesElems (e :: es) + fuel =
      nodesValue e + (nodesElems es + fuel) from by rw [nodesElems]; omega]
    rw [List.append_assoc]
    rw [ihv e hse hwf.1 depth bs1 h1 (nodesElems es + fuel) (bs2 ++ rest)
      (.arrayS size acc pos :: stack0)]
    rw [emitToStack]
    cases es with
    | nil =>
      rw [if_pos (by simp at hpos; omega)]
      rw [encodeElems] at h2
      have hbs2 := Except.ok.inj h2
      rw [← hbs2, List.nil_append]
      rw [show nodesElems ([] : List Value) + fuel = fuel from by
        rw [nodesElems]; omega]
    | cons e2 es2 =>
      rw [if_neg (by simp at hpos ⊢; omega)]
      rw [contEmit]
      rw [ih (by simp only [List.cons.sizeOf_spec] at hsize ⊢; omega) hwf.2 depth
        bs2 h2 size (acc ++ [e]) (pos + 1)
        (by simp at hpos ⊢; omega) (by simp) fuel rest stack0]
      rw [List.append_assoc]
      simp only [List.singleton_append]

theorem roundtrip_entries (N : Nat)
    (ihv : ∀ v : Value, sizeOf v ≤ N → wfValue v = true → ∀ depth bs,
      encodeValue 100 depth v = .ok bs →
      ∀ fuel rest stack, doDecodeSync defaultCfg flatSrc (nodesValue v + fuel)
        (bs ++ rest) stack = contEmit defaultCfg fuel (emitToStack v stack) rest) :
    ∀ kvs : List (MKey × Value), sizeOf kvs ≤ N → wfEntries kvs = true →
      ∀ depth bs, encodeEntries 100 depth kvs = .ok bs →
      ∀ (size readCount : Nat) (m : List (MKey × Value)),
        readCount + kvs.length = size → kvs ≠ [] →
        (∀ e ∈ kvs, ∀ e2 ∈ m, (e2.1 == e.1) = false) →
        ∀ fuel rest stack0,
          doDecodeSync defaultCfg flatSrc (nodesEntries kvs + fuel) (bs ++ rest)
            (.mapKeyS size readCount m :: stack0) =
          contEmit defaultCfg fuel (emitToStack (.map (m ++ kvs)) stack0) rest := by
  intro kvs
  induction kvs with
  | nil => intro _ _ _ _ _ _ _ _ _ hne; exact absurd rfl hne
  | cons e kvs ih =>
    obtain ⟨k, v⟩ := e
    intro hsize hwf depth bs henc size readCount m hpos _ hfresh fuel rest stack0
    rw [wfEntries] at hwf
    simp only [Bool.and_eq_true] at hwf
    obtain ⟨⟨⟨hwk, hany⟩, hwv⟩, hwrest⟩ := hwf
    obtain ⟨str, hkstr⟩ : ∃ str, k = MKey.str str := by
      cases k with
      | str str => exact ⟨str, rfl⟩
      | num x => cases hwk
    subst hkstr
    rw [encodeEntries] at henc
    obtain ⟨bs1, h1, henc⟩ := exBind_eq_ok henc
    obtain ⟨bs2, h2, henc⟩ := exBind_eq_ok henc
    obtain ⟨bs3, h3, henc⟩ := exBind_eq_ok henc
    have hbs := Except.ok.inj henc
    subst hbs
    rw [wfKey] at hwk
    simp only [Bool.and_eq_true] at hwk
    have hwstr : wfValue (.str str) = true := by
      rw [wfValue, Bool.and_eq_true]
      exact ⟨hwk.1.1, hwk.1.2⟩
    have hsstr : sizeOf (Value.str str) ≤ N := by
      simp only [List.cons.sizeOf_spec, Prod.mk.sizeOf_spec, MKey.str.sizeOf_spec,
        Value.str.sizeOf_spec] at hsize ⊢
      omega
    have h1v : encodeValue 100 0 (.str str) = .ok bs1 := by
      rw [encodeValue_of_key]
      exact h1
    rw [show nodesEntries ((MKey.str str, v) :: kvs) + fuel =
      nodesValue (Value.str str) +
        (nodesValue v + (nodesEntries kvs + fuel)) from by
      rw [nodesEntries]
      rw [show nodesValue (Value.str str) = 1 from by rw [nodesValue]]
      omega]
    rw [List.append_assoc, List.append_assoc]
    rw [ihv (.str str) hsstr hwstr 0 bs1 h1v
      (nodesValue v + (nodesEntries kvs + fuel)) (bs2 ++ (bs3 ++ rest))
      (.mapKeyS size readCount m :: stack0)]
    rw [emitToStack]
    rw [if_neg (by rw [isValidMapKeyType]; simp)]
    have hp : (str == protoBytes) = false := by
      have hq := hwk.2
      rwa [Bool.not_eq_true'] at hq
    rw [if_neg (by rw [isProtoKey]; simp [hp])]
    rw [contEmit]
    rw [ihv v (by
        simp only [List.cons.sizeOf_spec, Prod.mk.sizeOf_spec] at hsize ⊢
        omega) hwv depth bs2 h2 (nodesEntries kvs + fuel) (bs3 ++ rest)
      (.mapValueS size (toMapKey (.str str)) readCount m :: stack0)]
    rw [emitToStack]
    rw [show toMapKey (Value.str str) = MKey.str str from rfl]
    rw [recordSet_fresh m (MKey.str str) v
      (fun e2 he2 => hfresh (MKey.str str, v) (by simp) e2 he2)]
    cases kvs with
    | nil =>
      rw [if_pos (by simp at hpos; omega)]
      rw [encodeEntries] at h3
      have hbs3 := Except.ok.inj h3
      rw [← hbs3, List.nil_append]
      rw [show nodesEntries ([] : List (MKey × Value)) + fuel = fuel from by
        rw [nodesEntries]; omega]
    | cons e2 kvs2 =>
      rw [if_neg (by simp at hpos ⊢; omega)]
      rw [contEmit]
      rw [ih (by simp only [List.cons.sizeOf_spec] at hsize ⊢; omega) hwrest depth
        bs3 h3 size (readCount + 1) (m ++ [(MKey.str str, v)])
        (by simp at hpos ⊢; omega) (by simp) ?hfresh2 fuel rest stack0]
      case hfresh2 =>
        intro e he e2 he2
        rw [List.mem_append] at he2
        cases he2 with
        | inl hin => exact hfresh e (by simp [he]) e2 hin
        | inr hin =>
          rw [List.mem_singleton] at hin
          subst hin
          have := hany
          rw [Bool.not_eq_true'] at this
          rw [List.any_eq_false] at this
          have h5 := this e he
          rw [Bool.not_eq_true] at h5
          rw [beq_eq_false_iff_ne] at h5 ⊢
          exact fun hc => h5 (hc.symm)
      rw [List.append_assoc]
      simp only [List.singleton_append]

theorem roundtrip_value : ∀ (N : Nat) (v : Value), sizeOf v ≤ N →
    wfValue v = true → ∀ depth bs, encodeValue 100 depth v = .ok bs →
    ∀ fuel rest stack, doDecodeSync defaultCfg flatSrc (nodesValue v + fuel)
      (bs ++ rest) stack = contEmit defaultCfg fuel (emitToStack v stack) rest := by
  intro N
  induction N with
  | zero =>
    intro v hv
    exact absurd hv (by cases v <;> simp_arith)
  | succ N ih =>
    intro v hsize hwf depth bs henc fuel rest stack
    cases v with
    | nil =>
      rw [encodeValue] at henc
      split at henc
      · exact Except.noConfusion henc
      · have hbs := Except.ok.inj henc
        subst hbs
        rw [show nodesValue Value.nil + fuel = fuel + 1 from by rw [nodesValue]; omega]
        simp only [List.cons_append, List.nil_append]
        rw [doDecodeSync_obj _ _ _ _ _ _ (stepDispatch_nil defaultCfg rest)]
    | bool b =>
      cases b with
      | false =>
        rw [encodeValue] at henc
        split at henc
        · exact Except.noConfusion henc
        · have hbs := Except.ok.inj henc
          subst hbs
          rw [show nodesValue (Value.bool false) + fuel = fuel + 1 from by
            rw [nodesValue]; omega]
          simp only [List.cons_append, List.nil_append]
          rw [doDecodeSync_obj _ _ _ _ _ _ (stepDispatch_false defaultCfg rest)]
      | true =>
        rw [encodeValue] at henc
        split at henc
        · exact Except.noConfusion henc
        · have hbs := Except.ok.inj henc
          subst hbs
          rw [show nodesValue (Value.bool true) + fuel = fuel + 1 from by
            rw [nodesValue]; omega]
          simp only [List.cons_append, List.nil_append]
          rw [doDecodeSync_obj _ _ _ _ _ _ (stepDispatch_true defaultCfg rest)]
    | num x =>
      rw [encodeValue] at henc
      split at henc
      · exact Except.noConfusion henc
      · rw [show nodesValue (Value.num x) + fuel = fuel + 1 from by
          rw [nodesValue]; omega]
        cases x with
        | f32 bits =>
          rw [wfValue] at hwf
          exact absurd hwf (by simp)
        | f64 bits =>
          rw [encodeNumber] at henc
          split at henc
          · rename_i hbits
            have hbs := Except.ok.inj henc
            subst hbs
            simp only [List.cons_append]
            rw [doDecodeSync_obj _ _ _ _ _ _
              (stepDispatch_f64 defaultCfg bits (by norm_num; omega) rest)]
          · exact Except.noConfusion henc
        | int n =>
          rw [encodeNumber] at henc
          by_cases h0 : (0 : Int) ≤ n
          · rw [if_pos h0] at henc
            by_cases hc1 : n < 0x80
            · rw [if_pos hc1] at henc
              have hbs := Except.ok.inj henc
              subst hbs
              have hd := stepDispatch_posfixint defaultCfg n.toNat (by omega) rest
              rw [show ((n.toNat : Nat) : Int) = n from by omega] at hd
              simp only [List.cons_append, List.nil_append]
              rw [doDecodeSync_obj _ _ _ _ _ _ hd]
            · rw [if_neg hc1] at henc
              by_cases hc2 : n < 0x100
              · rw [if_pos hc2] at henc
                have hbs := Except.ok.inj henc
                subst hbs
                have hd := stepDispatch_u8 defaultCfg n.toNat (by omega) rest
                rw [show ((n.toNat : Nat) : Int) = n from by omega] at hd
                simp only [List.cons_append]
                rw [doDecodeSync_obj _ _ _ _ _ _ hd]
              · rw [if_neg hc2] at henc
                by_cases hc3 : n < 0x10000
                · rw [if_pos hc3] at henc
                  have hbs := Except.ok.inj henc
                  subst hbs
                  have hd := stepDispatch_u16 defaultCfg n.toNat (by norm_num; omega) rest
                  rw [show ((n.toNat : Nat) : Int) = n from by omega] at hd
                  simp only [List.cons_append]
                  rw [doDecodeSync_obj _ _ _ _ _ _ hd]
                · rw [if_neg hc3] at henc
                  by_cases hc4 : n < 4294967296
                  · rw [if_pos hc4] at henc
                    have hbs := Except.ok.inj henc
                    subst hbs
                    have hd := stepDispatch_u32 defaultCfg n.toNat (by norm_num; omega) rest
                    rw [show ((n.toNat : Nat) : Int) = n from by omega] at hd
                    simp only [List.cons_append]
                    rw [doDecodeSync_obj _ _ _ _ _ _ hd]
                  · rw [if_neg hc4] at henc
                    by_cases hc5 : n < 18446744073709551616
                    · rw [if_pos hc5] at henc
                      have hbs := Except.ok.inj henc
                      subst hbs
                      have hd := stepDispatch_u64 defaultCfg n.toNat (by norm_num; omega) rest
                      rw [show ((n.toNat : Nat) : Int) = n from by omega] at hd
                      simp only [List.cons_append]
                      rw [doDecodeSync_obj _ _ _ _ _ _ hd]
                    · rw [if_neg hc5] at henc
                      exact Except.noConfusion henc
          · rw [if_neg h0] at henc
            by_cases hc1 : -0x20 ≤ n
            · rw [if_pos hc1] at henc
              have hbs := Except.ok.inj henc
              subst hbs
              have hd := stepDispatch_negfixint defaultCfg (n + 0x100).toNat
                (by omega) rest
              rw [show (((n + 0x100).toNat : Nat) : Int) - 0x100 = n from by omega] at hd
              simp only [List.cons_append, List.nil_append]
              rw [doDecodeSync_obj _ _ _ _ _ _ hd]
            · rw [if_neg hc1] at henc
              by_cases hc2 : -0x80 ≤ n
              · rw [if_pos hc2] at henc
                have hbs := Except.ok.inj henc
                subst hbs
                simp only [List.cons_append]
                rw [doDecodeSync_obj _ _ _ _ _ _
                  (stepDispatch_i8 defaultCfg n (by norm_num; omega)
                    (by norm_num; omega) rest)]
              · rw [if_neg hc2] at henc
                by_cases hc3 : -0x8000 ≤ n
                · rw [if_pos hc3] at henc
                  have hbs := Except.ok.inj henc
                  subst hbs
                  simp only [List.cons_append]
                  rw [doDecodeSync_obj _ _ _ _ _ _
                    (stepDispatch_i16 defaultCfg n (by norm_num; omega)
                      (by norm_num; omega) rest)]
                · rw [if_neg hc3] at henc
                  by_cases hc4 : -2147483648 ≤ n
                  · rw [if_pos hc4] at henc
                    have hbs := Except.ok.inj henc
                    subst hbs
                    simp only [List.cons_append]
                    rw [doDecodeSync_obj _ _ _ _ _ _
                      (stepDispatch_i32 defaultCfg n (by norm_num; omega)
                        (by norm_num; omega) rest)]
                  · rw [if_neg hc4] at henc
                    by_cases hc5 : -9223372036854775808 ≤ n
                    · rw [if_pos hc5] at henc
                      have hbs := Except.ok.inj henc
                      subst hbs
                      simp only [List.cons_append]
                      rw [doDecodeSync_obj _ _ _ _ _ _
                        (stepDispatch_i64 defaultCfg n (by norm_num; omega)
                          (by norm_num; omega) rest)]
                    · rw [if_neg hc5] at henc
                      exact Except.noConfusion henc
    | str s =>
      rw [encodeValue] at henc
      split at henc
      · exact Except.noConfusion henc
      · obtain ⟨hdr, hh, henc⟩ := exBind_eq_ok henc
        have hbs := Except.ok.inj henc
        subst hbs
        rw [wfValue, Bool.and_eq_true] at hwf
        have hlen : s.length < 4294967296 := by
          have := hwf.2
          exact of_decide_eq_true this
        have hmax : ¬ s.length > defaultCfg.maxStrLength := by
          rw [show defaultCfg.maxStrLength = 4294967295 from rfl]
          omega
        rw [show nodesValue (Value.str s) + fuel = fuel + 1 from by
          rw [nodesValue]; omega]
        rw [strHeader] at hh
        by_cases hc1 : s.length < 32
        · rw [if_pos hc1] at hh
          have hhd := Except.ok.inj hh
          subst hhd
          simp only [List.cons_append, List.nil_append, List.append_assoc]
          rw [doDecodeSync_obj _ _ _ _ _ _
            (stepDispatch_fixstr defaultCfg s.length hc1 s rfl hmax rest)]
        · rw [if_neg hc1] at hh
          by_cases hc2 : s.length < 0x100
          · rw [if_pos hc2] at hh
            have hhd := Except.ok.inj hh
            subst hhd
            simp only [List.cons_append, List.append_assoc]
            rw [doDecodeSync_obj _ _ _ _ _ _
              (stepDispatch_str8 defaultCfg s.length hc2 s rfl hmax rest)]
          · rw [if_neg hc2] at hh
            by_cases hc3 : s.length < 0x10000
            · rw [if_pos hc3] at hh
              have hhd := Except.ok.inj hh
              subst hhd
              simp only [List.cons_append, List.append_assoc]
              rw [doDecodeSync_obj _ _ _ _ _ _
                (stepDispatch_str16 defaultCfg s.length (by norm_num; omega)
                  s rfl hmax rest)]
            · rw [if_neg hc3, if_pos hlen] at hh
              have hhd := Except.ok.inj hh
              subst hhd
              simp only [List.cons_append, List.append_assoc]
              rw [doDecodeSync_obj _ _ _ _ _ _
                (stepDispatch_str32 defaultCfg s.length (by norm_num; omega)
                  s rfl hmax rest)]
    | bin b =>
      rw [encodeValue] at henc
      split at henc
      · exact Except.noConfusion henc
      · obtain ⟨hdr, hh, henc⟩ := exBind_eq_ok henc
        have hbs := Except.ok.inj henc
        subst hbs
        rw [wfValue, Bool.and_eq_true] at hwf
        have hlen : b.length < 4294967296 := of_decide_eq_true hwf.2
        have hmax : ¬ b.length > defaultCfg.maxBinLength := by
          rw [show defaultCfg.maxBinLength = 4294967295 from rfl]
          omega
        rw [show nodesValue (Value.bin b) + fuel = fuel + 1 from by
          rw [nodesValue]; omega]
        rw [binHeader] at hh
        by_cases hc1 : b.length < 0x100
        · rw [if_pos hc1] at hh
          have hhd := Except.ok.inj hh
          subst hhd
          simp only [List.cons_append, List.append_assoc]
          rw [doDecodeSync_obj _ _ _ _ _ _
            (stepDispatch_bin8 defaultCfg b.length hc1 b rfl hmax rest)]
        · rw [if_neg hc1] at hh
          by_cases hc2 : b.length < 0x10000
          · rw [if_pos hc2] at hh
            have hhd := Except.ok.inj hh
            subst hhd
            simp only [List.cons_append, List.append_assoc]
            rw [doDecodeSync_obj _ _ _ _ _ _
              (stepDispatch_bin16 defaultCfg b.length (by norm_num; omega)
                b rfl hmax rest)]
          · rw [if_neg hc2, if_pos hlen] at hh
            have hhd := Except.ok.inj hh
            subst hhd
            simp only [List.cons_append, List.append_assoc]
            rw [doDecodeSync_obj _ _ _ _ _ _
              (stepDispatch_bin32 defaultCfg b.length (by norm_num; omega)
                b rfl hmax rest)]
    | ext t d =>
      rw [wfValue] at hwf
      exact absurd hwf (by simp)
    | arr es =>
      rw [encodeValue] at henc
      split at henc
      · exact Except.noConfusion henc
      · obtain ⟨hdr, hh, henc⟩ := exBind_eq_ok henc
        obtain ⟨body, hb, henc⟩ := exBind_eq_ok henc
        have hbs := Except.ok.inj henc
        subst hbs
        rw [wfValue, Bool.and_eq_true] at hwf
        have hlen : es.length < 4294967296 := of_decide_eq_true hwf.1
        have hsN : sizeOf es ≤ N := by
          simp only [Value.arr.sizeOf_spec] at hsize
          omega
        rw [show nodesValue (Value.arr es) + fuel =
          (nodesElems es + fuel) + 1 from by rw [nodesValue]; omega]
        cases es with
        | nil =>
          rw [encodeElems] at hb
          have hbody := Except.ok.inj hb
          subst hbody
          rw [arrayHeader] at hh
          rw [if_pos (by simp)] at hh
          have hhd := Except.ok.inj hh
          subst hhd
          simp only [List.length_nil, Nat.add_zero, List.append_nil,
            List.cons_append, List.nil_append]
          rw [show nodesElems ([] : List Value) + fuel = fuel from by
            rw [nodesElems]; omega]
          rw [doDecodeSync_obj _ _ _ _ _ _ (stepDispatch_fixarray_zero defaultCfg rest)]
        | cons e es2 =>
          have hpush : ∀ stack2,
              pushArrayState defaultCfg (e :: es2).length stack2 =
              .ok (.arrayS (e :: es2).length [] 0 :: stack2) := by
            intro stack2
            rw [pushArrayState]
            rw [if_neg (by
              rw [show defaultCfg.maxArrayLength = 4294967295 from rfl]
              omega)]
          rw [arrayHeader] at hh
          by_cases hc1 : (e :: es2).length < 16
          · rw [if_pos hc1] at hh
            have hhd := Except.ok.inj hh
            subst hhd
            simp only [List.cons_append, List.nil_append, List.append_assoc]
            rw [doDecodeSync_push_arr _ _ _ _ _ _
              (stepDispatch_fixarray_push defaultCfg (e :: es2).length
                (by simp) hc1 (body ++ rest))]
            rw [hpush]
            dsimp only
            rw [roundtrip_elems N ih (e :: es2) hsN hwf.2 (depth + 1) body hb
              (e :: es2).length [] 0 (by omega) (by simp) fuel rest stack]
            simp only [List.nil_append]
          · rw [if_neg hc1] at hh
            by_cases hc2 : (e :: es2).length < 0x10000
            · rw [if_pos hc2] at hh
              have hhd := Except.ok.inj hh
              subst hhd
              simp only [List.cons_append, List.append_assoc]
              rw [doDecodeSync_push_arr _ _ _ _ _ _
                (stepDispatch_array16 defaultCfg (e :: es2).length
                  (by simp) (by rw [show (256:Nat)^2 = 65536 from by norm_num]; omega)
                  (body ++ rest))]
              rw [hpush]
              dsimp only
              rw [roundtrip_elems N ih (e :: es2) hsN hwf.2 (depth + 1) body hb
                (e :: es2).length [] 0 (by omega) (by simp) fuel rest stack]
              simp only [List.nil_append]
            · rw [if_neg hc2, if_pos hlen] at hh
              have hhd := Except.ok.inj hh
              subst hhd
              simp only [List.cons_append, List.append_assoc]
              rw [doDecodeSync_push_arr _ _ _ _ _ _
                (stepDispatch_array32 defaultCfg (e :: es2).length
                  (by simp)
                  (by rw [show (256:Nat)^4 = 4294967296 from by norm_num]; omega)
                  (body ++ rest))]
              rw [hpush]
              dsimp only
              rw [roundtrip_elems N ih (e :: es2) hsN hwf.2 (depth + 1) body hb
                (e :: es2).length [] 0 (by omega) (by simp) fuel rest stack]
              simp only [List.nil_append]
    | map kvs =>
      rw [encodeValue] at henc
      split at henc
      · exact Except.noConfusion henc
      · obtain ⟨hdr, hh, henc⟩ := exBind_eq_ok henc
        obtain ⟨body, hb, henc⟩ := exBind_eq_ok henc
        have hbs := Except.ok.inj henc
        subst hbs
        rw [wfValue, Bool.and_eq_true] at hwf
        have hlen : kvs.length < 4294967296 := of_decide_eq_true hwf.1
        have hsN : sizeOf kvs ≤ N := by
          simp only [Value.map.sizeOf_spec] at hsize
          omega
        rw [show nodesValue (Value.map kvs) + fuel =
          (nodesEntries kvs + fuel) + 1 from by rw [nodesValue]; omega]
        cases kvs with
        | nil =>
          rw [encodeEntries] at hb
          have hbody := Except.ok.inj hb
          subst hbody
          rw [mapHeader] at hh
          rw [if_pos (by simp)] at hh
          have hhd := Except.ok.inj hh
          subst hhd
          simp only [List.length_nil, Nat.add_zero, List.append_nil,
            List.cons_append, List.nil_append]
          rw [show nodesEntries ([] : List (MKey × Value)) + fuel = fuel from by
            rw [nodesEntries]; omega]
          rw [doDecodeSync_obj _ _ _ _ _ _ (stepDispatch_fixmap_zero defaultCfg rest)]
        | cons e2 kvs2 =>
          have hpush : ∀ stack2,
              pushMapState defaultCfg (e2 :: kvs2).length stack2 =
              .ok (.mapKeyS (e2 :: kvs2).length 0 [] :: stack2) := by
            intro stack2
            rw [pushMapState]
            rw [if_neg (by
              rw [show defaultCfg.maxMapLength = 4294967295 from rfl]
              omega)]
          rw [mapHeader] at hh
          by_cases hc1 : (e2 :: kvs2).length < 16
          · rw [if_pos hc1] at hh
            have hhd := Except.ok.inj hh
            subst hhd
            simp only [List.cons_append, List.nil_append, List.append_assoc]
            rw [doDecodeSync_push_map _ _ _ _ _ _
              (stepDispatch_fixmap_push defaultCfg (e2 :: kvs2).length
                (by simp) hc1 (body ++ rest))]
            rw [hpush]
            dsimp only
            rw [roundtrip_entries N ih (e2 :: kvs2) hsN hwf.2 (depth + 1) body hb
              (e2 :: kvs2).length 0 [] (by omega) (by simp)
              (fun e he e3 he3 => absurd he3 (List.not_mem_nil e3)) fuel rest stack]
            simp only [List.nil_append]
          · rw [if_neg hc1] at hh
            by_cases hc2 : (e2 :: kvs2).length < 0x10000
            · rw [if_pos hc2] at hh
              have hhd := Except.ok.inj hh
              subst hhd
              simp only [List.cons_append, List.append_assoc]
              rw [doDecodeSync_push_map _ _ _ _ _ _
                (stepDispatch_map16 defaultCfg (e2 :: kvs2).length
                  (by simp) (by rw [show (256:Nat)^2 = 65536 from by norm_num]; omega)
                  (body ++ rest))]
              rw [hpush]
              dsimp only
              rw [roundtrip_entries N ih (e2 :: kvs2) hsN hwf.2 (depth + 1) body hb
                (e2 :: kvs2).length 0 [] (by omega) (by simp)
                (fun e he e3 he3 => absurd he3 (List.not_mem_nil e3)) fuel rest stack]
              simp only [List.nil_append]
            · rw [if_neg hc2, if_pos hlen] at hh
              have hhd := Except.ok.inj hh
              subst hhd
              simp only [List.cons_append, List.append_assoc]
              rw [doDecodeSync_push_map _ _ _ _ _ _
                (stepDispatch_map32 defaultCfg (e2 :: kvs2).length
                  (by simp)
                  (by rw [show (256:Nat)^4 = 4294967296 from by norm_num]; omega)
                  (body ++ rest))]
              rw [hpush]
              dsimp only
              rw [roundtrip_entries N ih (e2 :: kvs2) hsN hwf.2 (depth + 1) body hb
                (e2 :: kvs2).length 0 [] (by omega) (by simp)
                (fun e he e3 he3 => absurd he3 (List.not_mem_nil e3)) fuel rest stack]
              simp only [List.nil_append]

theorem strHeader_pos : ∀ len hdr, strHeader len = .ok hdr → 1 ≤ hdr.length := by
  intro len hdr h
  rw [strHeader] at h
  split at h
  · cases Except.ok.inj h
    simp
  · split at h
    · cases Except.ok.inj h
      simp only [List.length_cons]
      omega
    · split at h
      · cases Except.ok.inj h
        simp only [List.length_cons]
        omega
      · split at h
        · cases Except.ok.inj h
          simp only [List.length_cons]
          omega
        · exact Except.noConfusion h

theorem binHeader_pos : ∀ len hdr, binHeader len = .ok hdr → 1 ≤ hdr.length := by
  intro len hdr h
  rw [binHeader] at h
  split at h
  · cases Except.ok.inj h
    simp only [List.length_cons]
    omega
  · split at h
    · cases Except.ok.inj h
      simp only [List.length_cons]
      omega
    · split at h
      · cases Except.ok.inj h
        simp only [List.length_cons]
        omega
      · exact Except.noConfusion h

theorem arrayHeader_pos : ∀ len hdr, arrayHeader len = .ok hdr → 1 ≤ hdr.length := by
  intro len hdr h
  rw [arrayHeader] at h
  split at h
  · cases Except.ok.inj h
    simp
  · split at h
    · cases Except.ok.inj h
      simp only [List.length_cons]
      omega
    · split at h
      · cases Except.ok.inj h
        simp only [List.length_cons]
        omega
      · exact Except.noConfusion h

theorem mapHeader_pos : ∀ len hdr, mapHeader len = .ok hdr → 1 ≤ hdr.length := by
  intro len hdr h
  rw [mapHeader] at h
  split at h
  · cases Except.ok.inj h
    simp
  · split at h
    · cases Except.ok.inj h
      simp only [List.length_cons]
      omega
    · split at h
      · cases Except.ok.inj h
        simp only [List.length_cons]
        omega
      · exact Except.noConfusion h

theorem extHeader_pos : ∀ len hdr, extHeader len = .ok hdr → 1 ≤ hdr.length := by
  intro len hdr h
  rw [extHeader] at h
  split at h
  · cases Except.ok.inj h
    simp
  · split at h
    · cases Except.ok.inj h
      simp
    · split at h
      · cases Except.ok.inj h
        simp
      · split at h
        · cases Except.ok.inj h
          simp
        · split at h
          · cases Except.ok.inj h
            simp
          · split at h
            · cases Except.ok.inj h
              simp only [List.length_cons]
              omega
            · split at h
              · cases Except.ok.inj h
                simp only [List.length_cons]
                omega
              · split at h
                · cases Except.ok.inj h
                  simp only [List.length_cons]
                  omega
                · exact Except.noConfusion h

theorem encodeNumber_pos : ∀ n bs, encodeNumber n = .ok bs → 1 ≤ bs.length := by
  intro n bs h
  cases n with
  | int m =>
    rw [encodeNumber] at h
    split at h
    · split at h
      · cases Except.ok.inj h
        simp
      · split at h
        · cases Except.ok.inj h
          simp only [List.length_cons]
          omega
        · split at h
          · cases Except.ok.inj h
            simp only [List.length_cons]
            omega
          · split at h
            · cases Except.ok.inj h
              simp only [List.length_cons]
              omega
            · split at h
              · cases Except.ok.inj h
                simp only [List.length_cons]
                omega
              · exact Except.noConfusion h
    · split at h
      · cases Except.ok.inj h
        simp
      · split at h
        · cases Except.ok.inj h
          simp only [List.length_cons]
          omega
        · split at h
          · cases Except.ok.inj h
            simp only [List.length_cons]
            omega
          · split at h
            · cases Except.ok.inj h
              simp only [List.length_cons]
              omega
            · split at h
              · cases Except.ok.inj h
                simp only [List.length_cons]
                omega
              · exact Except.noConfusion h
  | f64 bits =>
    rw [encodeNumber] at h
    split at h
    · cases Except.ok.inj h
      simp only [List.length_cons]
      omega
    · exact Except.noConfusion h
  | f32 bits => exact Except.noConfusion h

theorem encodeMKey_pos : ∀ k bs, encodeMKey k = .ok bs → 1 ≤ bs.length := by
  intro k bs h
  cases k with
  | str s =>
    rw [encodeMKey] at h
    obtain ⟨hdr, hh, h⟩ := exBind_eq_ok h
    cases Except.ok.inj h
    have := strHeader_pos s.length hdr hh
    simp only [List.length_append]
    omega
  | num n =>
    rw [encodeMKey] at h
    exact encodeNumber_pos n bs h

theorem encodeElems_nodes_le (N : Nat)
    (ihv : ∀ v : Value, sizeOf v ≤ N → ∀ depth bs,
      encodeValue 100 depth v = .ok bs → nodesValue v ≤ bs.length) :
    ∀ es : List Value, sizeOf es ≤ N → ∀ depth bs,
      encodeElems 100 depth es = .ok bs → nodesElems es ≤ bs.length := by
  intro es
  induction es with
  | nil =>
    intro _ depth bs hb
    rw [encodeElems] at hb
    cases Except.ok.inj hb
    rw [nodesElems]
    omega
  | cons v vs ih =>
    intro hs depth bs hb
    simp only [List.cons.sizeOf_spec] at hs
    rw [encodeElems] at hb
    obtain ⟨b1, h1, hb⟩ := exBind_eq_ok hb
    obtain ⟨b2, h2, hb⟩ := exBind_eq_ok hb
    cases Except.ok.inj hb
    rw [nodesElems]
    simp only [List.length_append]
    have hv := ihv v (by omega) depth b1 h1
    have hvs := ih (by omega) depth b2 h2
    omega

theorem encodeEntries_nodes_le (N : Nat)
    (ihv : ∀ v : Value, sizeOf v ≤ N → ∀ depth bs,
      encodeValue 100 depth v = .ok bs → nodesValue v ≤ bs.length) :
    ∀ kvs : List (MKey × Value), sizeOf kvs ≤ N → ∀ depth bs,
      encodeEntries 100 depth kvs = .ok bs → nodesEntries kvs ≤ bs.length := by
  intro kvs
  induction kvs with
  | nil =>
    intro _ depth bs hb
    rw [encodeEntries] at hb
    cases Except.ok.inj hb
    rw [nodesEntries]
    omega
  | cons e rest ih =>
    obtain ⟨k, v⟩ := e
    intro hs depth bs hb
    simp only [List.cons.sizeOf_spec, Prod.mk.sizeOf_spec] at hs
    rw [encodeEntries] at hb
    obtain ⟨kb, hk, hb⟩ := exBind_eq_ok hb
    obtain ⟨vb, hv, hb⟩ := exBind_eq_ok hb
    obtain ⟨rb, hr, hb⟩ := exBind_eq_ok hb
    cases Except.ok.inj hb
    rw [nodesEntries]
    simp only [List.length_append]
    have h1 := encodeMKey_pos k kb hk
    have h2 := ihv v (by omega) depth vb hv
    have h3 := ih (by omega) depth rb hr
    omega

theorem encodeValue_nodes_le : ∀ (N : Nat) (v : Value), sizeOf v ≤ N →
    ∀ depth bs, encodeValue 100 depth v = .ok bs → nodesValue v ≤ bs.length := by
  intro N
  induction N with
  | zero =>
    intro v hv
    exact absurd hv (by cases v <;> simp_arith)
  | succ N ih =>
    intro v hsize depth bs henc
    cases v with
    | nil =>
      rw [encodeValue] at henc
      split at henc
      · exact Except.noConfusion henc
      · cases Except.ok.inj henc
        rw [nodesValue]
        simp
    | bool b =>
      cases b with
      | false =>
        rw [encodeValue] at henc
        split at henc
        · exact Except.noConfusion henc
        · cases Except.ok.inj henc
          rw [nodesValue]
          simp
      | true =>
        rw [encodeValue] at henc
        split at henc
        · exact Except.noConfusion henc
        · cases Except.ok.inj henc
          rw [nodesValue]
          simp
    | num x =>
      rw [encodeValue] at henc
      split at henc
      · exact Except.noConfusion henc
      · rw [nodesValue]
        exact encodeNumber_pos x bs henc
    | str s =>
      rw [encodeValue] at henc
      split at henc
      · exact Except.noConfusion henc
      · obtain ⟨hdr, hh, henc⟩ := exBind_eq_ok henc
        cases Except.ok.inj henc
        rw [nodesValue]
        have := strHeader_pos s.length hdr hh
        simp only [List.length_append]
        omega
    | bin b =>
      rw [encodeValue] at henc
      split at henc
      · exact Except.noConfusion henc
      · obtain ⟨hdr, hh, henc⟩ := exBind_eq_ok henc
        cases Except.ok.inj henc
        rw [nodesValue]
        have := binHeader_pos b.length hdr hh
        simp only [List.length_append]
        omega
    | ext t d =>
      rw [encodeValue] at henc
      split at henc
      · exact Except.noConfusion henc
      · obtain ⟨hdr, hh, henc⟩ := exBind_eq_ok henc
        cases Except.ok.inj henc
        rw [nodesValue]
        have := extHeader_pos d.length hdr hh
        simp only [List.length_append]
        omega
    | arr es =>
      rw [encodeValue] at henc
      split at henc
      · exact Except.noConfusion henc
      · obtain ⟨hdr, hh, henc⟩ := exBind_eq_ok henc
        obtain ⟨body, hb, henc⟩ := exBind_eq_ok henc
        cases Except.ok.inj henc
        rw [nodesValue]
        have h1 := arrayHeader_pos es.length hdr hh
        have hsN : sizeOf es ≤ N := by
          simp only [Value.arr.sizeOf_spec] at hsize
          omega
        have h2 := encodeElems_nodes_le N ih es hsN (depth + 1) body hb
        simp only [List.length_append]
        omega
    | map kvs =>
      rw [encodeValue] at henc
      split at henc
      · exact Except.noConfusion henc
      · obtain ⟨hdr, hh, henc⟩ := exBind_eq_ok henc
        obtain ⟨body, hb, henc⟩ := exBind_eq_ok henc
        cases Except.ok.inj henc
        rw [nodesValue]
        have h1 := mapHeader_pos kvs.length hdr hh
        have hsN : sizeOf kvs ≤ N := by
          simp only [Value.map.sizeOf_spec] at hsize
          omega
        have h2 := encodeEntries_nodes_le N ih kvs hsN (depth + 1) body hb
        simp only [List.length_append]
        omega

/-- C1: for every supported well-formed value `v` (nil, booleans, 64-bit
integers, finite doubles, strings, binaries, arrays and maps of such
values, with string/integer keys other than `"__proto__"`), decoding the
bytes produced by `encode v` through the buffer-resident path yields
exactly `v`, with no bytes left over. -/
theorem decode_encode_roundtrip (v : Value) (hwf : wfValue v = true)
    (bs : List Byte) (henc : encode v = .ok bs) :
    decode defaultCfg bs = .ok v := by
  rw [encode] at henc
  have hle := encodeValue_nodes_le (sizeOf v) v (le_refl _) 1 bs henc
  have hmain := roundtrip_value (sizeOf v) v (le_refl _) hwf 1 bs henc
    (bs.length + 1 - nodesValue v) [] []
  rw [show nodesValue v + (bs.length + 1 - nodesValue v) = bs.length + 1 from by
    omega] at hmain
  rw [List.append_nil] at hmain
  rw [decode, decodeFlat, hmain]
  rw [emitToStack]
  rfl

theorem decode_encode_roundtrip_witness :
    wfValue (Value.map [(MKey.str [0x61], Value.num (JNum.int 1))]) = true ∧
    encode (Value.map [(MKey.str [0x61], Value.num (JNum.int 1))]) =
      .ok [0x81, 0xa1, 0x61, 0x01] ∧
    decode defaultCfg [0x81, 0xa1, 0x61, 0x01] =
      .ok (Value.map [(MKey.str [0x61], Value.num (JNum.int 1))]) :=
  ⟨by decide, by rfl,
    decode_encode_roundtrip (Value.map [(MKey.str [0x61], Value.num (JNum.int 1))])
      (by decide) [0x81, 0xa1, 0x61, 0x01] (by rfl)⟩

/-- C8: `decodeStream` is meant to decode exactly one value from the
chunked source and deliver it, suspending on each short read and resuming
as the source supplies bytes.  It does so on small messages even one byte
per pull (first conjunct), but it fails to deliver the value of the valid
4097-byte-binary message - which the buffer-resident path decodes fully
(second conjunct) - for every pull source that could supply all the bytes
(any schedule offering at least the 1 and 2 bytes asked by the two header
reads), because the scratch capacity is only doubled to 4096 and the pull
window is clamped to it (third conjunct). -/
theorem decodeStream_single_value_delivery :
    decodeStream defaultCfg [0xa1, 0x61] (fun _ => 1) = .ok (.str [0x61]) ∧
    decodeFlat defaultCfg binMsg4097 = .ok (.bin (List.replicate 4097 7), []) ∧
    ∀ sched : Nat → Nat, 1 ≤ sched 0 → 2 ≤ sched 1 →
      decodeStream defaultCfg binMsg4097 sched = .error .moreData := by
  refine ⟨by rfl, ?_, ?_⟩
  · rw [show binMsg4097 = 0xc5 :: 0x10 :: 0x01 :: List.replicate 4097 7 from rfl]
    exact decodeFlat_bin16 defaultCfg 0x10 0x01 _
      (by rw [List.length_replicate]) (by decide)
  · intro sched hs0 hs1
    rw [show binMsg4097 = 0xc5 :: 0x10 :: 0x01 :: List.replicate 4097 7 from rfl]
    exact decodeStream_bin16_capped defaultCfg 0x10 0x01 _ sched
      (by rw [List.length_replicate]) (by decide) hs0 hs1 (by decide)

theorem decodeStream_single_value_delivery_witness :
    decodeStream defaultCfg binMsg4097 (fun _ => 4097) = .error .moreData :=
  decodeStream_single_value_delivery.2.2 (fun _ => 4097) (by decide) (by decide)
